import Mathlib

/-!
Shallow embedding of the EBCOT Tier-1 code-block decoder of this repository
(`jpc/src/code_block.rs`), verified against its natural-language specification.

Modelling conventions:

* The `Decoder` trait (`crate::coder`) is not part of the sources; following the
  specification it is modelled as a deterministic oracle of bits: `Coder.bits`
  gives the bit returned by the n-th `decode_bit` call, `Coder.pos` counts the
  calls already made, and `Coder.trace` records the context index passed to each
  call (exactly the information the crate's own `MockCoder` test double checks).
  The distinguished contexts `RUN_LEN`/`UNIFORM` are modelled from the spec
  glossary as indices 17 and 18, which the crate's mock tests also use.
* Rust's checked integer semantics (the semantics `cargo test` exercises) is
  modelled: an arithmetic overflow/underflow or an over-wide shift amount, like
  an `assert!`/`panic!`, aborts the program.  Such aborts are `DecErr.abort`.
  The `CodeBlockDecodeError` value of the source, which `decode`'s `Result`
  could carry but which is never constructed, is `DecErr.codeBlockDecodeFailure`.
* Coefficient magnitudes are stored by the source in `i16`; they are modelled
  as `Int` with the `i16` edge behaviour made explicit: `1i16 << 15` evaluates
  to `-32768`, `1i16 << s` for `s ≥ 16` aborts (shift-amount overflow), the u8
  shift `b << s` in the refinement pass aborts for `s ≥ 8`, and `-1 * (-32768)`
  in `coefficients()` aborts (multiplication overflow).
* A ghost field `passTrace` mirrors the source's per-pass `info!` logging: each
  pass records its kind and the bit-plane shift at which it ran.  No decision
  of the decoder reads this field.
-/

/-- Sub-band types in the wavelet decomposition (`jpc/src/shared.rs`). -/
inductive SubBandType
  | LL
  | HL
  | LH
  | HH
deriving DecidableEq, Repr

/-- A coefficient cell: `Significant { value, is_negative }` or
`Insignificant(bit-plane shift when last touched)`. -/
inductive Coeff
  | Significant (value : Int) (is_negative : Bool)
  | Insignificant (bs : Nat)
deriving DecidableEq, Repr

/-- Errors of a modelled run: `abort` is a Rust panic / failed `assert!` /
checked-arithmetic overflow; `codeBlockDecodeFailure` is the
`CodeBlockDecodeError` value of the source's `Result` type. -/
inductive DecErr
  | abort
  | codeBlockDecodeFailure
deriving DecidableEq, Repr

deriving instance DecidableEq for Except

/-- The kind of a coding pass, for the ghost pass trace. -/
inductive PassKind
  | cleanup
  | significance
  | refinement
deriving DecidableEq, Repr

/-- The arithmetic-decoder oracle (models the `Decoder` trait object). -/
structure Coder where
  bits : Nat → Bool
  pos : Nat
  trace : List Nat

/-- Modelled from the spec: `RUN_LEN` is the distinguished run-length context
of `crate::coder` (not under `src/`); the spec glossary and the crate's mock
tests fix its index as 17. -/
def RUN_LEN : Nat := 17

/-- Modelled from the spec: `UNIFORM` is the distinguished uniform context of
`crate::coder` (not under `src/`); the spec glossary and the crate's mock
tests fix its index as 18. -/
def UNIFORM : Nat := 18

/-- One `decode_bit(cx)` call: returns the next oracle bit as 0/1 and records
the context index that was used. -/
def Coder.decodeBit (c : Coder) (cx : Nat) : Nat × Coder :=
  ((if c.bits c.pos then 1 else 0),
   { bits := c.bits, pos := c.pos + 1, trace := c.trace ++ [cx] })

/-- A coder after consuming `cxs.length` further bits, with `cxs` the context
indices used (statement helper). -/
def Coder.advance (c : Coder) (cxs : List Nat) : Coder :=
  { bits := c.bits, pos := c.pos + cxs.length, trace := c.trace ++ cxs }

/-- Decoder state for one code block (`CodeBlockDecoder` of the source), plus
the ghost `passTrace`. -/
structure CodeBlockDecoder where
  width : Int
  height : Int
  subband : SubBandType
  no_passes : Nat
  bit_plane_shift : Nat
  coefficients : List Coeff
  passTrace : List (PassKind × Nat)
deriving DecidableEq

/-- contribution of a cell to the sign context: -1, 0, 1 (Table D.2). -/
def Coeff.sign_contribution : Coeff → Int
  | .Insignificant _ => 0
  | .Significant _ is_negative => if is_negative then -1 else 1

/-- `1i16 << s` under checked semantics: aborts for `s ≥ 16`, wraps into the
sign bit at `s = 15`. -/
def i16Shl1 (s : Nat) : Except DecErr Int :=
  if 16 ≤ s then .error .abort
  else .ok (if s = 15 then -32768 else (2 : Int) ^ s)

/-- Arithmetic right shift of an `i16` value (`v >> s`) under checked
semantics: aborts when the shift amount reaches the bit width. -/
def i16Asr (v : Int) (s : Nat) : Except DecErr Int :=
  if 16 ≤ s then .error .abort else .ok (Int.fdiv v ((2 : Int) ^ s))

/-- `b << s` on `u8` under checked semantics: aborts for `s ≥ 8`. -/
def u8Shl (b s : Nat) : Except DecErr Nat :=
  if 8 ≤ s then .error .abort else .ok (b <<< s)

/-- Out-of-lattice test of `coeff_at`/`coeff_at_mut`/`is_significant`. -/
def outBounds (st : CodeBlockDecoder) (y x : Int) : Bool :=
  decide (x < 0) || decide (st.width ≤ x) || decide (y < 0) || decide (st.height ≤ y)

/-- `coeff_at`: out-of-lattice reads yield the `Insignificant(u8::MAX)`
sentinel; in-lattice reads index the row-major array at `width * y + x`. -/
def coeff_at (st : CodeBlockDecoder) (y x : Int) : Coeff :=
  if outBounds st y x then .Insignificant 255
  else st.coefficients.getD (st.width * y + x).toNat (.Insignificant 255)

/-- The store of `coeff_at_mut`: replace the cell at row-major index
`width * y + x`. -/
def updCoeff (st : CodeBlockDecoder) (y x : Int) (c : Coeff) : CodeBlockDecoder :=
  { st with coefficients := st.coefficients.set (st.width * y + x).toNat c }

/-- The next oracle bit of a coder, as the 0/1 the decoder returns. -/
def bitAt (c : Coder) : Nat :=
  if c.bits c.pos then 1 else 0

/-- `coeff_at_mut` followed by a store: asserts the index is in the lattice. -/
def coeff_set (st : CodeBlockDecoder) (y x : Int) (c : Coeff) :
    Except DecErr CodeBlockDecoder :=
  if outBounds st y x then .error .abort
  else .ok (updCoeff st y x c)

/-- `is_significant`: false outside the lattice, else the cell's tag. -/
def is_significant (st : CodeBlockDecoder) (y x : Int) : Bool :=
  if outBounds st y x then false
  else
    match coeff_at st y x with
    | .Insignificant _ => false
    | .Significant _ _ => true

/-- The `contribution` helper of `sign_context`: sums two cell contributions
and collapses the total to -1/0/1 (the wildcard arm is a `panic!`). -/
def contribution (a b : Coeff) : Except DecErr Int :=
  let t := a.sign_contribution + b.sign_contribution
  if t = 1 ∨ t = 2 then .ok 1
  else if t = 0 then .ok 0
  else if t = -1 ∨ t = -2 then .ok (-1)
  else .error .abort

/-- `sign_context`: Table D.3 lookup from the clamped horizontal/vertical
contributions; returns the context index and the xor flag. -/
def sign_context (st : CodeBlockDecoder) (y x : Int) : Except DecErr (Nat × Nat) :=
  let v0 := coeff_at st (y - 1) x
  let v1 := coeff_at st (y + 1) x
  let h0 := coeff_at st y (x - 1)
  let h1 := coeff_at st y (x + 1)
  (contribution v0 v1).bind fun vc =>
  (contribution h0 h1).bind fun hc =>
  if hc = 1 ∧ vc = 1 then .ok (13, 0)
  else if hc = 1 ∧ vc = 0 then .ok (12, 0)
  else if hc = 1 ∧ vc = -1 then .ok (11, 0)
  else if hc = 0 ∧ vc = 1 then .ok (10, 0)
  else if hc = 0 ∧ vc = 0 then .ok (9, 0)
  else if hc = 0 ∧ vc = -1 then .ok (10, 1)
  else if hc = -1 ∧ vc = 1 then .ok (11, 1)
  else if hc = -1 ∧ vc = 0 then .ok (12, 1)
  else if hc = -1 ∧ vc = -1 then .ok (13, 1)
  else .error .abort

/-- The LL/LH arm of Table D.1 (wildcard arm is a `panic!`), in source order. -/
def sigTableLLLH : Nat → Nat → Nat → Except DecErr Nat
  | 0, 0, 0 => .ok 0
  | 0, 0, 1 => .ok 1
  | 0, 0, _ => .ok 2
  | 0, 1, _ => .ok 3
  | 0, 2, _ => .ok 4
  | 1, 0, 0 => .ok 5
  | 1, 0, _ => .ok 6
  | 1, _, _ => .ok 7
  | 2, _, _ => .ok 8
  | _, _, _ => .error .abort

/-- The HL arm of Table D.1 (wildcard arm is a `panic!`), in source order. -/
def sigTableHL : Nat → Nat → Nat → Except DecErr Nat
  | 0, 0, 0 => .ok 0
  | 0, 0, 1 => .ok 1
  | 0, 0, _ => .ok 2
  | 1, 0, _ => .ok 3
  | 2, 0, _ => .ok 4
  | 0, 1, 0 => .ok 5
  | 0, 1, _ => .ok 6
  | _, 1, _ => .ok 7
  | _, 2, _ => .ok 8
  | _, _, _ => .error .abort

/-- The HH arm of Table D.1 on `(h + v, d)`, with its guards written as the
source orders them (wildcard arm is a `panic!`). -/
def sigTableHH (hv d : Nat) : Except DecErr Nat :=
  if hv = 0 ∧ d = 0 then .ok 0
  else if hv = 1 ∧ d = 0 then .ok 1
  else if 2 ≤ hv ∧ d = 0 then .ok 2
  else if hv = 0 ∧ d = 1 then .ok 3
  else if hv = 1 ∧ d = 1 then .ok 4
  else if 2 ≤ hv ∧ d = 1 then .ok 5
  else if hv = 0 ∧ d = 2 then .ok 6
  else if 1 ≤ hv ∧ d = 2 then .ok 7
  else if 3 ≤ d then .ok 8
  else .error .abort

/-- Count of significant horizontal neighbours (left, right). -/
def hCount (st : CodeBlockDecoder) (y x : Int) : Nat :=
  (is_significant st y (x - 1)).toNat + (is_significant st y (x + 1)).toNat

/-- Count of significant vertical neighbours (up, down). -/
def vCount (st : CodeBlockDecoder) (y x : Int) : Nat :=
  (is_significant st (y - 1) x).toNat + (is_significant st (y + 1) x).toNat

/-- Count of significant diagonal neighbours (all four corners). -/
def dCount (st : CodeBlockDecoder) (y x : Int) : Nat :=
  (is_significant st (y - 1) (x - 1)).toNat + (is_significant st (y - 1) (x + 1)).toNat +
  (is_significant st (y + 1) (x - 1)).toNat + (is_significant st (y + 1) (x + 1)).toNat

/-- `significance_context`: neighbour counts fed into the per-sub-band arm of
Table D.1. -/
def significance_context (st : CodeBlockDecoder) (y x : Int) : Except DecErr Nat :=
  match st.subband with
  | .LL | .LH => sigTableLLLH (hCount st y x) (vCount st y x) (dCount st y x)
  | .HL => sigTableHL (hCount st y x) (vCount st y x) (dCount st y x)
  | .HH => sigTableHH (hCount st y x + vCount st y x) (dCount st y x)

/-- `make_significant`: stores `1i16 << bit_plane_shift` with a positive sign;
a `panic!` guards against doubling up. -/
def make_significant (st : CodeBlockDecoder) (y x : Int) :
    Except DecErr CodeBlockDecoder :=
  match coeff_at st y x with
  | .Insignificant _ =>
    (i16Shl1 st.bit_plane_shift).bind fun v =>
    coeff_set st y x (.Significant v false)
  | .Significant _ _ => .error .abort

/-- `is_bit_plane_set`: LSB of the value arithmetically shifted right by the
current bit-plane shift; `panic!` on an insignificant cell. -/
def is_bit_plane_set (st : CodeBlockDecoder) (y x : Int) : Except DecErr Bool :=
  match coeff_at st y x with
  | .Insignificant _ => .error .abort
  | .Significant v _ =>
    (i16Asr v st.bit_plane_shift).map fun sv => decide (1 = sv.emod 2)

/-- `significance_decode_ctx`: one bit with a known context; a 1 makes the
cell significant. -/
def significance_decode_ctx (cx : Nat) (st : CodeBlockDecoder) (c : Coder)
    (y x : Int) : Except DecErr (Bool × CodeBlockDecoder × Coder) :=
  let p := c.decodeBit cx
  if p.1 = 1 then (make_significant st y x).map fun st1 => (true, st1, p.2)
  else .ok (false, st, p.2)

/-- `significance_decode`: skips (without consuming a bit) a cell already
tagged insignificant at the current shift, else decodes with the cell's
significance context; `panic!` on a significant cell. -/
def significance_decode (st : CodeBlockDecoder) (c : Coder) (y x : Int) :
    Except DecErr (Bool × CodeBlockDecoder × Coder) :=
  match coeff_at st y x with
  | .Insignificant bs =>
    if bs = st.bit_plane_shift then .ok (false, st, c)
    else (significance_context st y x).bind fun cx => significance_decode_ctx cx st c y x
  | .Significant _ _ => .error .abort

/-- `decode_sign_bit`: sign context, one bit, and the xor flag give the cell's
`is_negative`. -/
def decode_sign_bit (st : CodeBlockDecoder) (c : Coder) (y x : Int) :
    Except DecErr (CodeBlockDecoder × Coder) :=
  (sign_context st y x).bind fun cxor =>
  let p := c.decodeBit cxor.1
  match coeff_at st y x with
  | .Significant v _ =>
    (coeff_set st y x (.Significant v (decide ((p.1 ^^^ cxor.2) ≠ 0)))).map
      fun st1 => (st1, p.2)
  | .Insignificant _ => .error .abort

/-- The neighbour arm of `magnitude_context`: 15 when an orthogonal neighbour
is significant, else 15 when a diagonal is, else 14. -/
def magNeighbourCtx (st : CodeBlockDecoder) (y x : Int) : Nat :=
  let h0 := (is_significant st y (x - 1)).toNat
  let h1 := (is_significant st y (x + 1)).toNat
  let v0 := (is_significant st (y - 1) x).toNat
  let v1 := (is_significant st (y + 1) x).toNat
  let c := v0 + v1 + h0 + h1
  if 0 < c then 15
  else
    let dc := (is_significant st (y - 1) (x - 1)).toNat +
      (is_significant st (y - 1) (x + 1)).toNat +
      (is_significant st (y + 1) (x - 1)).toNat +
      (is_significant st (y + 1) (x + 1)).toNat
    if 0 < dc + c then 15 else 14

/-- `magnitude_context`: 16 once `value >> (1 + bit_plane_shift)` differs from
1, else the neighbour-dependent 14/15. -/
def magnitude_context (st : CodeBlockDecoder) (y x : Int) : Except DecErr Nat :=
  match coeff_at st y x with
  | .Significant v _ =>
    (i16Asr v (1 + st.bit_plane_shift)).bind fun sv =>
    if sv ≠ 1 then .ok 16
    else .ok (magNeighbourCtx st y x)
  | .Insignificant _ => .ok (magNeighbourCtx st y x)

/-- `magnitude_decode`: one bit with the magnitude context, OR-ed into the
value at the current shift; the `b << shift` is `u8` arithmetic. -/
def magnitude_decode (st : CodeBlockDecoder) (c : Coder) (y x : Int) :
    Except DecErr (CodeBlockDecoder × Coder) :=
  (magnitude_context st y x).bind fun cx =>
  let p := c.decodeBit cx
  match coeff_at st y x with
  | .Insignificant _ => .error .abort
  | .Significant v neg =>
    (u8Shl p.1 st.bit_plane_shift).bind fun add =>
    (coeff_set st y x (.Significant (Int.lor v (Int.ofNat add)) neg)).map
      fun st1 => (st1, p.2)

/-- The integers `lo, lo+1, …, hi-1` (a Rust `lo..hi` loop over `i32`). -/
def intRange (lo hi : Int) : List Int :=
  (List.range (hi - lo).toNat).map fun i => lo + Int.ofNat i

/-- The strip bases `0, 4, 8, …` below `h` (Rust `(0..h).step_by(4)`). -/
def stripStarts (h : Int) : List Int :=
  (List.range ((h.toNat + 3) / 4)).map fun i => 4 * Int.ofNat i

/-- Generic loop over an index list with decoder state threading; an error
stops the loop (a Rust panic aborts the run). -/
def loopM (f : Int → CodeBlockDecoder × Coder → Except DecErr (CodeBlockDecoder × Coder)) :
    List Int → CodeBlockDecoder × Coder → Except DecErr (CodeBlockDecoder × Coder)
  | [], sc => .ok sc
  | i :: rest, sc => (f i sc).bind (loopM f rest)

/-- One cell of the cleanup pass's trailing per-cell loop: an insignificant
cell is significance-decoded and, when it turns significant, sign-decoded. -/
def cleanupCell (x y : Int) (sc : CodeBlockDecoder × Coder) :
    Except DecErr (CodeBlockDecoder × Coder) :=
  if is_significant sc.1 y x then .ok sc
  else
    (significance_decode sc.1 sc.2 y x).bind fun r =>
    if r.1 then decode_sign_bit r.2.1 r.2.2 y x else .ok r.2

/-- One column of a 4-tall strip of the cleanup pass, including the D8
run-length branch. -/
def cleanupColumn (b x : Int) (sc : CodeBlockDecoder × Coder) :
    Except DecErr (CodeBlockDecoder × Coder) :=
  let st := sc.1
  let c := sc.2
  let rows := intRange b (min (b + 4) st.height)
  let countInsig := (rows.filter fun y => ! is_significant st y x).length
  if countInsig = 4 then
    let p := c.decodeBit RUN_LEN
    if p.1 ≠ 1 then .ok (st, p.2)
    else
      let pa := p.2.decodeBit UNIFORM
      let pb := pa.2.decodeBit UNIFORM
      let c5 := 2 * pa.1 + pb.1
      if c5 < 4 then
        (make_significant st (b + (c5 : Int)) x).bind fun st1 =>
        (decode_sign_bit st1 pb.2 (b + (c5 : Int)) x).bind fun sc2 =>
        loopM (fun y sc3 => cleanupCell x y sc3)
          (intRange (b + (c5 : Int) + 1) (min (b + 4) st.height)) sc2
      else .error .abort
  else
    loopM (fun y sc3 => cleanupCell x y sc3) (intRange b (min (b + 4) st.height)) (st, c)

/-- Ghost bookkeeping: a pass records its kind and the shift it runs at. -/
def recordPass (k : PassKind) (sc : CodeBlockDecoder × Coder) : CodeBlockDecoder × Coder :=
  ({ sc.1 with passTrace := sc.1.passTrace ++ [(k, sc.1.bit_plane_shift)] }, sc.2)

/-- `pass_cleanup`: 4-tall strips across the full width, column by column. -/
def pass_cleanup (sc : CodeBlockDecoder × Coder) :
    Except DecErr (CodeBlockDecoder × Coder) :=
  let sc0 := recordPass .cleanup sc
  loopM (fun b sc1 => loopM (fun x sc2 => cleanupColumn b x sc2) (intRange 0 sc1.1.width) sc1)
    (stripStarts sc0.1.height) sc0

/-- One cell of the significance propagation pass (decisions D1 and D2). -/
def sigCell (x y : Int) (sc : CodeBlockDecoder × Coder) :
    Except DecErr (CodeBlockDecoder × Coder) :=
  let st := sc.1
  let c := sc.2
  if is_significant st y x then .ok (st, c)
  else
    (significance_context st y x).bind fun sig_ctx =>
    if sig_ctx = 0 then .ok (st, c)
    else
      (significance_decode_ctx sig_ctx st c y x).bind fun r =>
      if r.1 then decode_sign_bit r.2.1 r.2.2 y x
      else (coeff_set r.2.1 y x (.Insignificant r.2.1.bit_plane_shift)).map
        fun st2 => (st2, r.2.2)

/-- `pass_significance`: the same strip scan, cell by cell. -/
def pass_significance (sc : CodeBlockDecoder × Coder) :
    Except DecErr (CodeBlockDecoder × Coder) :=
  let sc0 := recordPass .significance sc
  loopM (fun b sc1 =>
      loopM (fun x sc2 =>
          loopM (fun y sc3 => sigCell x y sc3) (intRange b (min (b + 4) sc2.1.height)) sc2)
        (intRange 0 sc1.1.width) sc1)
    (stripStarts sc0.1.height) sc0

/-- One cell of the magnitude refinement pass (decisions D5 and D6). -/
def refineCell (x y : Int) (sc : CodeBlockDecoder × Coder) :
    Except DecErr (CodeBlockDecoder × Coder) :=
  let st := sc.1
  let c := sc.2
  if ! is_significant st y x then .ok (st, c)
  else
    (is_bit_plane_set st y x).bind fun bitSet =>
    if bitSet then .ok (st, c)
    else magnitude_decode st c y x

/-- `pass_refinement`: the same strip scan, cell by cell. -/
def pass_refinement (sc : CodeBlockDecoder × Coder) :
    Except DecErr (CodeBlockDecoder × Coder) :=
  let sc0 := recordPass .refinement sc
  loopM (fun b sc1 =>
      loopM (fun x sc2 =>
          loopM (fun y sc3 => refineCell x y sc3) (intRange b (min (b + 4) sc2.1.height)) sc2)
        (intRange 0 sc1.1.width) sc1)
    (stripStarts sc0.1.height) sc0

/-- `self.bit_plane_shift -= 1` on a `u8` under checked semantics. -/
def decShift (st : CodeBlockDecoder) : Except DecErr CodeBlockDecoder :=
  if st.bit_plane_shift = 0 then .error .abort
  else .ok { st with bit_plane_shift := st.bit_plane_shift - 1 }

/-- The iteration list of `for _ in (1..no_passes).step_by(3)`. -/
def stepRange3 (n : Nat) : List Nat :=
  (List.range ((n - 1 + 2) / 3)).map fun i => 1 + 3 * i

/-- The triplet loop of `decode`: decrement the shift, then run
significance → refinement → cleanup, once per iteration of `stepRange3`. -/
def tripletLoop : List Nat → CodeBlockDecoder × Coder →
    Except DecErr (CodeBlockDecoder × Coder)
  | [], sc => .ok sc
  | _ :: rest, sc =>
    (decShift sc.1).bind fun st1 =>
    (pass_significance (st1, sc.2)).bind fun sc2 =>
    (pass_refinement sc2).bind fun sc3 =>
    (pass_cleanup sc3).bind fun sc4 =>
    tripletLoop rest sc4

/-- `CodeBlockDecoder::decode`: one cleanup pass, then the triplet loop; the
source returns `Ok(())` unconditionally at the end. -/
def CodeBlockDecoder.decode (st : CodeBlockDecoder) (c : Coder) :
    Except DecErr (CodeBlockDecoder × Coder) :=
  (pass_cleanup (st, c)).bind fun sc1 => tripletLoop (stepRange3 st.no_passes) sc1

/-- `CodeBlockDecoder::new`: `bit_plane_shift = mb - 1` (a `u8` underflow for
`mb = 0`), and a `width * height` cell vector (negative or `i32`-overflowing
products abort the allocation). -/
def CodeBlockDecoder.new (width height : Int) (subband : SubBandType)
    (no_passes : Nat) (mb : Nat) : Except DecErr CodeBlockDecoder :=
  if mb = 0 then .error .abort
  else if width * height < 0 ∨ (2 : Int) ^ 31 ≤ width * height then .error .abort
  else .ok
    { width := width, height := height, subband := subband,
      no_passes := no_passes, bit_plane_shift := mb - 1,
      coefficients := List.replicate (width * height).toNat (.Insignificant 255),
      passTrace := [] }

/-- `num_zero_bit_plane`: `bit_plane_shift -= arg` on a `u8` under checked
semantics. -/
def num_zero_bit_plane (st : CodeBlockDecoder) (arg : Nat) :
    Except DecErr CodeBlockDecoder :=
  if st.bit_plane_shift < arg then .error .abort
  else .ok { st with bit_plane_shift := st.bit_plane_shift - arg }

/-- The per-cell map of `coefficients()`: `-1 * value` is `i16` arithmetic, so
it aborts on `-32768`. -/
def coeffOut : Coeff → Except DecErr Int
  | .Significant v neg =>
    if neg then (if v = -32768 then .error .abort else .ok (-1 * v)) else .ok v
  | .Insignificant _ => .ok 0

/-- Error-propagating map over the cell list. -/
def mapExc : List Coeff → Except DecErr (List Int)
  | [] => .ok []
  | c :: rest => (coeffOut c).bind fun z => (mapExc rest).map fun zs => z :: zs

/-- `CodeBlockDecoder::coefficients`: the row-major signed output vector. -/
def CodeBlockDecoder.coefficientsVec (st : CodeBlockDecoder) : Except DecErr (List Int) :=
  mapExc st.coefficients

/-! ## Specification-side definitions (written from the spec's words, for the
refinement-style claims) and statement helpers. -/

/-- Spec-side output map: `(magnitude for significant cells, 0 for
insignificant)` with the sign applied. -/
def specCoeffOut : Coeff → Int
  | .Significant v neg => if neg then -v else v
  | .Insignificant _ => 0

/-- Spec-side LL/LH significance-context table `(h,v,d) ↦ …` of claim C5. -/
def specLLLH (h v d : Nat) : Nat :=
  if h = 0 ∧ v = 0 ∧ d = 0 then 0
  else if h = 0 ∧ v = 0 ∧ d = 1 then 1
  else if h = 0 ∧ v = 0 ∧ 2 ≤ d then 2
  else if h = 0 ∧ v = 1 then 3
  else if h = 0 ∧ v = 2 then 4
  else if h = 1 ∧ v = 0 ∧ d = 0 then 5
  else if h = 1 ∧ v = 0 ∧ 1 ≤ d then 6
  else if h = 1 ∧ 1 ≤ v then 7
  else 8

/-- Spec-side HH significance-context table `(h+v, d) ↦ …` of claim C5. -/
def specHH (hv d : Nat) : Nat :=
  if hv = 0 ∧ d = 0 then 0
  else if hv = 1 ∧ d = 0 then 1
  else if 2 ≤ hv ∧ d = 0 then 2
  else if hv = 0 ∧ d = 1 then 3
  else if hv = 1 ∧ d = 1 then 4
  else if 2 ≤ hv ∧ d = 1 then 5
  else if hv = 0 ∧ d = 2 then 6
  else if 1 ≤ hv ∧ d = 2 then 7
  else 8

/-- Spec-side significance context: LL/LH table, HL with the h/v roles
swapped, HH on `(h+v, d)`. -/
def specSigTable (sb : SubBandType) (h v d : Nat) : Nat :=
  match sb with
  | .LL | .LH => specLLLH h v d
  | .HL => specLLLH v h d
  | .HH => specHH (h + v) d

/-- Spec-side clamp of a summed sign contribution to `{-1, 0, +1}`. -/
def specClamp (t : Int) : Int := max (-1) (min 1 t)

/-- Spec-side Table D.3: `(h_contrib, v_contrib) ↦ (context, xor_flag)`; the
sign-negated pairs give the same context with xor flag 1. -/
def specSignCtx (hc vc : Int) : Nat × Nat :=
  if hc = 1 ∧ vc = 1 then (13, 0)
  else if hc = 1 ∧ vc = 0 then (12, 0)
  else if hc = 1 ∧ vc = -1 then (11, 0)
  else if hc = 0 ∧ vc = 1 then (10, 0)
  else if hc = 0 ∧ vc = 0 then (9, 0)
  else if hc = 0 ∧ vc = -1 then (10, 1)
  else if hc = -1 ∧ vc = 1 then (11, 1)
  else if hc = -1 ∧ vc = 0 then (12, 1)
  else (13, 1)

/-- The clamped horizontal sign contribution of a cell's neighbours. -/
def hContribOf (st : CodeBlockDecoder) (y x : Int) : Int :=
  specClamp ((coeff_at st y (x - 1)).sign_contribution +
    (coeff_at st y (x + 1)).sign_contribution)

/-- The clamped vertical sign contribution of a cell's neighbours. -/
def vContribOf (st : CodeBlockDecoder) (y x : Int) : Int :=
  specClamp ((coeff_at st (y - 1) x).sign_contribution +
    (coeff_at st (y + 1) x).sign_contribution)

/-- Spec-side first-refinement magnitude context: 15 when any of the eight
neighbours is significant, else 14. -/
def specMagCtx (st : CodeBlockDecoder) (y x : Int) : Nat :=
  if 0 < hCount st y x + vCount st y x + dCount st y x then 15 else 14

/-- The pass events of `n` triplets starting below shift `s` (source shape). -/
def tripletEvents (s : Nat) : Nat → List (PassKind × Nat)
  | 0 => []
  | n + 1 =>
    [(.significance, s - 1), (.refinement, s - 1), (.cleanup, s - 1)] ++
      tripletEvents (s - 1) n

/-- Spec-side pass schedule of claim C1: cleanup at the most significant
remaining plane, then for each triplet `i` the three passes one plane down. -/
def specSchedule (np s0 : Nat) : List (PassKind × Nat) :=
  (.cleanup, s0) ::
    (List.range ((np - 1 + 2) / 3)).flatMap fun i =>
      [(.significance, s0 - 1 - i), (.refinement, s0 - 1 - i), (.cleanup, s0 - 1 - i)]

/-- Spec-side run branch of the cleanup pass (claim C3): two UNIFORM bits,
`c5 = 2a + b`, make `(x, by + c5)` significant, decode its sign, then treat
the remaining rows from `by + c5 + 1` on individually. -/
def specRunBranch (st : CodeBlockDecoder) (c : Coder) (b x : Int) :
    Except DecErr (CodeBlockDecoder × Coder) :=
  let a : Nat := if c.bits (c.pos + 1) then 1 else 0
  let bb : Nat := if c.bits (c.pos + 2) then 1 else 0
  let c5 := 2 * a + bb
  let c3 := c.advance [RUN_LEN, UNIFORM, UNIFORM]
  (make_significant st (b + (c5 : Int)) x).bind fun st1 =>
  (decode_sign_bit st1 c3 (b + (c5 : Int)) x).bind fun sc2 =>
  loopM (fun y sc3 => cleanupCell x y sc3)
    (intRange (b + (c5 : Int) + 1) (min (b + 4) st.height)) sc2

/-- Frame of a cell-level step: every field but the cell contents is kept, and
the cell list keeps its length. -/
def StepOk (st st1 : CodeBlockDecoder) : Prop :=
  st1.width = st.width ∧ st1.height = st.height ∧ st1.subband = st.subband ∧
  st1.no_passes = st.no_passes ∧ st1.bit_plane_shift = st.bit_plane_shift ∧
  st1.passTrace = st.passTrace ∧ st1.coefficients.length = st.coefficients.length

/-- All significant magnitudes are non-negative and below `2 ^ B`. -/
def ValsBounded (B : Nat) (st : CodeBlockDecoder) : Prop :=
  ∀ co ∈ st.coefficients, ∀ v neg, co = Coeff.Significant v neg →
    0 ≤ v ∧ v < (2 : Int) ^ B

/-- A run result is not the never-constructed `CodeBlockDecodeError`. -/
def NotCBDF {α : Type} (r : Except DecErr α) : Prop :=
  r ≠ .error .codeBlockDecodeFailure

/-- The coder trace grew only by context indices below 17 (so neither
`RUN_LEN` nor `UNIFORM` was consumed). -/
def TraceLowExt (c c1 : Coder) : Prop :=
  ∃ ext, c1.trace = c.trace ++ ext ∧ ∀ t ∈ ext, t < 17

/-- The error of a run, if any (statement helper). -/
def errOf {α : Type} : Except DecErr α → Option DecErr
  | .error e => some e
  | .ok _ => none

/-- Construct-and-decode helper for the concrete runs in counterexamples. -/
def runNew (w h : Int) (sb : SubBandType) (np mb : Nat) (c : Coder) :
    Except DecErr (CodeBlockDecoder × Coder) :=
  (CodeBlockDecoder.new w h sb np mb).bind fun st => st.decode c

/-- The coefficient output of a run (statement helper). -/
def coeffsOf (r : Except DecErr (CodeBlockDecoder × Coder)) : Except DecErr (List Int) :=
  r.bind fun p => p.1.coefficientsVec

/-- The ghost pass-trace of a run (statement helper). -/
def passesOf (r : Except DecErr (CodeBlockDecoder × Coder)) :
    Except DecErr (List (PassKind × Nat)) :=
  r.map fun p => p.1.passTrace

/-- Oracle that always answers 0. -/
def zeroCoder : Coder := { bits := fun _ => false, pos := 0, trace := [] }

/-- Oracle that always answers 1. -/
def oneCoder : Coder := { bits := fun _ => true, pos := 0, trace := [] }

/-- The fresh 1×1 block `new 1 1 LL 1 1` builds (witness state for the
coefficient-bound claim). -/
def wit2St : CodeBlockDecoder :=
  { width := 1, height := 1, subband := .LL, no_passes := 1, bit_plane_shift := 0,
    coefficients := [.Insignificant 255], passTrace := [] }

/-- The fresh 1×1 block `new 1 1 LL 1 15` builds (witness state for the i16
storage claim; initial shift 14). -/
def wit10St : CodeBlockDecoder :=
  { width := 1, height := 1, subband := .LL, no_passes := 1, bit_plane_shift := 14,
    coefficients := [.Insignificant 255], passTrace := [] }

/-- A fresh 1-wide, 4-tall code block (witness state for the cleanup claim). -/
def wit4St : CodeBlockDecoder :=
  { width := 1, height := 4, subband := .LL, no_passes := 1, bit_plane_shift := 1,
    coefficients := List.replicate 4 (.Insignificant 255), passTrace := [] }

/-- A 1-wide, 4-tall block whose top cell is significant (witness state for
the significance-propagation claim: the second cell sees context 3). -/
def wit4bSt : CodeBlockDecoder :=
  { width := 1, height := 4, subband := .LL, no_passes := 1, bit_plane_shift := 1,
    coefficients := [.Significant 2 false, .Insignificant 255, .Insignificant 255,
      .Insignificant 255], passTrace := [] }

/-- A 1×1 block holding one significant cell at shift 13 (counterexample state
for the refinement-OR claim: the `u8` shift `b << 13` aborts). -/
def cex7St : CodeBlockDecoder :=
  { width := 1, height := 1, subband := .LL, no_passes := 4, bit_plane_shift := 13,
    coefficients := [.Significant 16384 false], passTrace := [] }

/-- A 1×1 block holding one significant cell at shift 2 (witness state for the
refinement claims). -/
def wit7St : CodeBlockDecoder :=
  { width := 1, height := 1, subband := .LL, no_passes := 4, bit_plane_shift := 2,
    coefficients := [.Significant 8 false], passTrace := [] }

/-- The oracle bits of the crate's J.10(a) mock test (`test_cb_decode_j10a_mocked`). -/
def j10aBits : List Bool :=
  [true, true, true, true, false, true, false, true, false, false, true, true, true,
   false, true, false, true, false, false, false, true, true, false, false, true,
   true, true, false, true, false, false, false, false, true]

/-- The oracle of the J.10(a) test. -/
def j10aCoder : Coder := { bits := fun i => j10aBits.getD i false, pos := 0, trace := [] }

/-- The oracle bits of the crate's J.10(b) mock test (`test_cb_decode_j10b_mocked`). -/
def j10bBits : List Bool :=
  [true, false, true, false, false, false, false, false, false, false, true, false,
   true, false, false, true]

/-- The oracle of the J.10(b) test. -/
def j10bCoder : Coder := { bits := fun i => j10bBits.getD i false, pos := 0, trace := [] }

/-! ## Generic plumbing lemmas -/

theorem bind_eq_ok {α β : Type} {r : Except DecErr α} {f : α → Except DecErr β}
    {b : β} (h : r.bind f = .ok b) : ∃ a, r = .ok a ∧ f a = .ok b := by
  cases r with
  | error e => simp [Except.bind] at h
  | ok a => exact ⟨a, rfl, h⟩

theorem map_eq_ok {α β : Type} {r : Except DecErr α} {f : α → β}
    {b : β} (h : r.map f = .ok b) : ∃ a, r = .ok a ∧ f a = b := by
  cases r with
  | error e => simp [Except.map] at h
  | ok a => exact ⟨a, rfl, by simpa [Except.map] using h⟩

theorem loopM_inv {P : CodeBlockDecoder × Coder → Prop}
    {f : Int → CodeBlockDecoder × Coder → Except DecErr (CodeBlockDecoder × Coder)}
    (hf : ∀ i sc sc', f i sc = .ok sc' → P sc → P sc') :
    ∀ l sc sc', loopM f l sc = .ok sc' → P sc → P sc' := by
  intro l
  induction l with
  | nil => intro sc sc' h hP; simp [loopM] at h; cases h; exact hP
  | cons i rest ih =>
    intro sc sc' h hP
    obtain ⟨mid, hmid, hrest⟩ := bind_eq_ok h
    exact ih mid sc' hrest (hf i sc mid hmid hP)

theorem stepOk_refl (st : CodeBlockDecoder) : StepOk st st := by
  simp [StepOk]

theorem stepOk_trans {a b c : CodeBlockDecoder} (h1 : StepOk a b) (h2 : StepOk b c) :
    StepOk a c := by
  obtain ⟨w1, h1', s1, n1, b1, p1, l1⟩ := h1
  obtain ⟨w2, h2', s2, n2, b2, p2, l2⟩ := h2
  exact ⟨w2.trans w1, h2'.trans h1', s2.trans s1, n2.trans n1, b2.trans b1,
    p2.trans p1, l2.trans l1⟩

/-! ## Frame lemmas: cell-level steps never touch the geometry, the pass
counter, the shift, the ghost trace, or the cell count. -/

theorem coeff_set_ok {st : CodeBlockDecoder} {y x : Int} {co : Coeff}
    {st1 : CodeBlockDecoder} (h : coeff_set st y x co = .ok st1) :
    st1 = updCoeff st y x co := by
  unfold coeff_set at h
  split at h
  · simp at h
  · cases h; rfl

theorem coeff_set_stepOk {st : CodeBlockDecoder} {y x : Int} {co : Coeff}
    {st1 : CodeBlockDecoder} (h : coeff_set st y x co = .ok st1) : StepOk st st1 := by
  rw [coeff_set_ok h]; simp [StepOk, updCoeff]

theorem make_significant_stepOk {st : CodeBlockDecoder} {y x : Int}
    {st1 : CodeBlockDecoder} (h : make_significant st y x = .ok st1) : StepOk st st1 := by
  unfold make_significant at h
  split at h
  · obtain ⟨v, _, hset⟩ := bind_eq_ok h
    exact coeff_set_stepOk hset
  · simp at h

theorem decode_sign_bit_stepOk {st : CodeBlockDecoder} {c : Coder} {y x : Int}
    {sc1 : CodeBlockDecoder × Coder} (h : decode_sign_bit st c y x = .ok sc1) :
    StepOk st sc1.1 := by
  unfold decode_sign_bit at h
  obtain ⟨cxor, _, h2⟩ := bind_eq_ok h
  split at h2
  · obtain ⟨st2, hset, heq⟩ := map_eq_ok h2
    have := coeff_set_stepOk hset
    cases heq; exact this
  · simp at h2

theorem significance_decode_ctx_stepOk {cx : Nat} {st : CodeBlockDecoder} {c : Coder}
    {y x : Int} {r : Bool × CodeBlockDecoder × Coder}
    (h : significance_decode_ctx cx st c y x = .ok r) : StepOk st r.2.1 := by
  unfold significance_decode_ctx at h
  dsimp only at h
  split at h
  · obtain ⟨st2, hmk, heq⟩ := map_eq_ok h
    have := make_significant_stepOk hmk
    cases heq; exact this
  · cases h; exact stepOk_refl st

theorem significance_decode_stepOk {st : CodeBlockDecoder} {c : Coder} {y x : Int}
    {r : Bool × CodeBlockDecoder × Coder}
    (h : significance_decode st c y x = .ok r) : StepOk st r.2.1 := by
  unfold significance_decode at h
  split at h
  · split at h
    · cases h; exact stepOk_refl st
    · obtain ⟨cx, _, h2⟩ := bind_eq_ok h
      exact significance_decode_ctx_stepOk h2
  · simp at h

theorem magnitude_decode_stepOk {st : CodeBlockDecoder} {c : Coder} {y x : Int}
    {sc1 : CodeBlockDecoder × Coder} (h : magnitude_decode st c y x = .ok sc1) :
    StepOk st sc1.1 := by
  unfold magnitude_decode at h
  obtain ⟨cx, _, h2⟩ := bind_eq_ok h
  split at h2
  · simp at h2
  · obtain ⟨add, _, h3⟩ := bind_eq_ok h2
    obtain ⟨st2, hset, heq⟩ := map_eq_ok h3
    have := coeff_set_stepOk hset
    cases heq; exact this

theorem cleanupCell_stepOk {x y : Int} {sc sc1 : CodeBlockDecoder × Coder}
    (h : cleanupCell x y sc = .ok sc1) : StepOk sc.1 sc1.1 := by
  unfold cleanupCell at h
  split at h
  · cases h; exact stepOk_refl _
  · obtain ⟨r, hr, h2⟩ := bind_eq_ok h
    have s1 := significance_decode_stepOk hr
    split at h2
    · exact stepOk_trans s1 (decode_sign_bit_stepOk h2)
    · cases h2; exact s1

theorem sigCell_stepOk {x y : Int} {sc sc1 : CodeBlockDecoder × Coder}
    (h : sigCell x y sc = .ok sc1) : StepOk sc.1 sc1.1 := by
  unfold sigCell at h
  dsimp only at h
  split at h
  · cases h; exact stepOk_refl _
  · obtain ⟨cx, _, h2⟩ := bind_eq_ok h
    split at h2
    · cases h2; exact stepOk_refl _
    · obtain ⟨r, hr, h3⟩ := bind_eq_ok h2
      have s1 := significance_decode_ctx_stepOk hr
      split at h3
      · exact stepOk_trans s1 (decode_sign_bit_stepOk h3)
      · obtain ⟨st2, hset, heq⟩ := map_eq_ok h3
        have s2 := coeff_set_stepOk hset
        cases heq; exact stepOk_trans s1 s2

theorem refineCell_stepOk {x y : Int} {sc sc1 : CodeBlockDecoder × Coder}
    (h : refineCell x y sc = .ok sc1) : StepOk sc.1 sc1.1 := by
  unfold refineCell at h
  dsimp only at h
  split at h
  · cases h; exact stepOk_refl _
  · obtain ⟨bs, _, h2⟩ := bind_eq_ok h
    split at h2
    · cases h2; exact stepOk_refl _
    · exact magnitude_decode_stepOk h2

theorem cleanupColumn_stepOk {b x : Int} {sc sc1 : CodeBlockDecoder × Coder}
    (h : cleanupColumn b x sc = .ok sc1) : StepOk sc.1 sc1.1 := by
  unfold cleanupColumn at h
  dsimp only at h
  have hcell : ∀ (i : Int) (sc2 sc3 : CodeBlockDecoder × Coder),
      cleanupCell x i sc2 = .ok sc3 → StepOk sc.1 sc2.1 → StepOk sc.1 sc3.1 :=
    fun i sc2 sc3 hc hP => stepOk_trans hP (cleanupCell_stepOk hc)
  split at h
  · split at h
    · cases h; exact stepOk_refl _
    · split at h
      · obtain ⟨st1, hmk, h2⟩ := bind_eq_ok h
        obtain ⟨sc2, hsb, h3⟩ := bind_eq_ok h2
        have s1 := make_significant_stepOk hmk
        have s2 := decode_sign_bit_stepOk hsb
        exact loopM_inv (P := fun q => StepOk sc.1 q.1) hcell _ _ _ h3
          (stepOk_trans s1 s2)
      · simp at h
  · exact loopM_inv (P := fun q => StepOk sc.1 q.1) hcell _ _ _ h (stepOk_refl _)

theorem loopM_stepOk
    {f : Int → CodeBlockDecoder × Coder → Except DecErr (CodeBlockDecoder × Coder)}
    (hf : ∀ i sc sc', f i sc = .ok sc' → StepOk sc.1 sc'.1) :
    ∀ l sc sc', loopM f l sc = .ok sc' → StepOk sc.1 sc'.1 :=
  fun l sc sc' h =>
    loopM_inv (P := fun q => StepOk sc.1 q.1)
      (fun i a b hb hP => stepOk_trans hP (hf i a b hb)) l sc sc' h (stepOk_refl _)

theorem pass_cleanup_frame {stc : CodeBlockDecoder × Coder}
    {sc1 : CodeBlockDecoder × Coder} (h : pass_cleanup stc = .ok sc1) :
    StepOk (recordPass .cleanup stc).1 sc1.1 := by
  unfold pass_cleanup at h
  exact loopM_stepOk
    (fun b sc sc' hb => loopM_stepOk (fun x q q' hq => cleanupColumn_stepOk hq) _ _ _ hb)
    _ _ _ h

theorem pass_significance_frame {stc : CodeBlockDecoder × Coder}
    {sc1 : CodeBlockDecoder × Coder} (h : pass_significance stc = .ok sc1) :
    StepOk (recordPass .significance stc).1 sc1.1 := by
  unfold pass_significance at h
  exact loopM_stepOk
    (fun b sc sc' hb => loopM_stepOk
      (fun x q q' hq => loopM_stepOk (fun y r r' hr => sigCell_stepOk hr) _ _ _ hq) _ _ _ hb)
    _ _ _ h

theorem pass_refinement_frame {stc : CodeBlockDecoder × Coder}
    {sc1 : CodeBlockDecoder × Coder} (h : pass_refinement stc = .ok sc1) :
    StepOk (recordPass .refinement stc).1 sc1.1 := by
  unfold pass_refinement at h
  exact loopM_stepOk
    (fun b sc sc' hb => loopM_stepOk
      (fun x q q' hq => loopM_stepOk (fun y r r' hr => refineCell_stepOk hr) _ _ _ hq) _ _ _ hb)
    _ _ _ h

theorem decShift_ok {st st1 : CodeBlockDecoder} (h : decShift st = .ok st1) :
    st.bit_plane_shift ≠ 0 ∧
      st1 = { st with bit_plane_shift := st.bit_plane_shift - 1 } := by
  unfold decShift at h
  split at h
  · simp at h
  · cases h; exact ⟨by assumption, rfl⟩

theorem tripletLoop_frame :
    ∀ (l : List Nat) (sc sc' : CodeBlockDecoder × Coder),
      tripletLoop l sc = .ok sc' →
      sc'.1.width = sc.1.width ∧ sc'.1.height = sc.1.height ∧
      sc'.1.subband = sc.1.subband ∧ sc'.1.no_passes = sc.1.no_passes ∧
      l.length ≤ sc.1.bit_plane_shift ∧
      sc'.1.bit_plane_shift = sc.1.bit_plane_shift - l.length ∧
      sc'.1.passTrace = sc.1.passTrace ++ tripletEvents sc.1.bit_plane_shift l.length ∧
      sc'.1.coefficients.length = sc.1.coefficients.length := by
  intro l
  induction l with
  | nil =>
    intro sc sc' h
    simp [tripletLoop] at h
    cases h
    simp [tripletEvents]
  | cons hd rest ih =>
    intro sc sc' h
    unfold tripletLoop at h
    obtain ⟨st1, hdec, h2⟩ := bind_eq_ok h
    obtain ⟨hne, hst1⟩ := decShift_ok hdec
    obtain ⟨sc2, hsig, h3⟩ := bind_eq_ok h2
    obtain ⟨sc3, href, h4⟩ := bind_eq_ok h3
    obtain ⟨sc4, hcln, h5⟩ := bind_eq_ok h4
    have f2 := pass_significance_frame hsig
    have f3 := pass_refinement_frame href
    have f4 := pass_cleanup_frame hcln
    have fr := ih sc4 sc' h5
    obtain ⟨w2, h2', s2, n2, b2, p2, l2⟩ := f2
    obtain ⟨w3, h3', s3, n3, b3, p3, l3⟩ := f3
    obtain ⟨w4, h4', s4, n4, b4, p4, l4⟩ := f4
    obtain ⟨wr, hr', sr, nr, lenr, br, pr, lr⟩ := fr
    subst hst1
    simp [recordPass] at w2 h2' s2 n2 b2 p2 l2 w3 h3' s3 n3 b3 p3 l3 w4 h4' s4 n4 b4 p4 l4
    constructor
    · rw [wr, w4, w3, w2]
    constructor
    · rw [hr', h4', h3', h2']
    constructor
    · rw [sr, s4, s3, s2]
    constructor
    · rw [nr, n4, n3, n2]
    constructor
    · have : rest.length ≤ sc4.1.bit_plane_shift := lenr
      rw [b4, b3, b2] at this
      simp only [List.length_cons]
      omega
    constructor
    · rw [br, b4, b3, b2]
      simp only [List.length_cons]
      omega
    constructor
    · rw [pr, p4, p3, p2, b4, b3, b2]
      simp only [List.length_cons, tripletEvents]
      simp [List.append_assoc]
    · rw [lr, l4, l3, l2]

theorem decode_frame {st : CodeBlockDecoder} {c : Coder}
    {sc' : CodeBlockDecoder × Coder} (h : st.decode c = .ok sc') :
    sc'.1.width = st.width ∧ sc'.1.height = st.height ∧
    sc'.1.subband = st.subband ∧ sc'.1.no_passes = st.no_passes ∧
    (st.no_passes - 1 + 2) / 3 ≤ st.bit_plane_shift ∧
    sc'.1.bit_plane_shift = st.bit_plane_shift - (st.no_passes - 1 + 2) / 3 ∧
    sc'.1.passTrace = st.passTrace ++
      ((.cleanup, st.bit_plane_shift) ::
        tripletEvents st.bit_plane_shift ((st.no_passes - 1 + 2) / 3)) ∧
    sc'.1.coefficients.length = st.coefficients.length := by
  unfold CodeBlockDecoder.decode at h
  obtain ⟨sc1, hcln, h2⟩ := bind_eq_ok h
  have f1 := pass_cleanup_frame hcln
  have fr := tripletLoop_frame _ _ _ h2
  obtain ⟨w1, h1', s1, n1, b1, p1, l1⟩ := f1
  obtain ⟨wr, hr', sr, nr, lenr, br, pr, lr⟩ := fr
  simp [recordPass] at w1 h1' s1 n1 b1 p1 l1
  have hlen : (stepRange3 st.no_passes).length = (st.no_passes - 1 + 2) / 3 := by
    simp [stepRange3]
  rw [hlen, b1] at lenr br
  rw [b1] at pr
  refine ⟨wr.trans w1, hr'.trans h1', sr.trans s1, nr.trans n1, lenr, br.trans rfl, ?_, lr.trans l1⟩
  rw [pr, p1, hlen]
  simp [List.append_assoc]

theorem tripletEvents_eq_spec :
    ∀ (n s : Nat), n ≤ s →
      tripletEvents s n = (List.range n).flatMap fun i =>
        [(.significance, s - 1 - i), (.refinement, s - 1 - i), (.cleanup, s - 1 - i)] := by
  intro n
  induction n with
  | zero => intro s _; simp [tripletEvents]
  | succ n ih =>
    intro s hs
    rw [List.range_succ_eq_map, List.flatMap_cons, List.flatMap_map]
    have hfun : (fun a => [((PassKind.significance : PassKind), s - 1 - Nat.succ a),
          (.refinement, s - 1 - Nat.succ a), (.cleanup, s - 1 - Nat.succ a)]) =
        fun a => [((PassKind.significance : PassKind), s - 1 - 1 - a),
          (.refinement, s - 1 - 1 - a), (.cleanup, s - 1 - 1 - a)] := by
      funext a
      have hsub : s - 1 - Nat.succ a = s - 1 - 1 - a := by omega
      rw [hsub]
    rw [hfun, ← ih (s - 1) (by omega)]
    simp [tripletEvents]

theorem specSchedule_length (np s0 : Nat) :
    (specSchedule np s0).length = 1 + 3 * ((np - 1 + 2) / 3) := by
  unfold specSchedule
  rw [List.length_cons, List.length_flatMap]
  have h3 : (List.map (List.length ∘ fun i =>
      [((PassKind.significance : PassKind), s0 - 1 - i), (.refinement, s0 - 1 - i),
       (.cleanup, s0 - 1 - i)]) (List.range ((np - 1 + 2) / 3))).sum =
      3 * ((np - 1 + 2) / 3) := by
    generalize (np - 1 + 2) / 3 = m
    induction m with
    | zero => simp
    | succ m ihm =>
      rw [List.range_succ, List.map_append, List.sum_append]
      simp only [ihm]
      simp
      ring
  rw [h3]
  omega

/-- C1 (amended): for every decode that returns Ok, pass 1 is a Cleanup at the
most-significant remaining bit-plane, and each subsequent triplet decrements
`bit_plane_shift` by one and runs Significance Propagation, Magnitude
Refinement and Cleanup in that order; the total number of passes consumed is
`1 + 3 * ceil((no_passes - 1) / 3)` — equal to `no_passes` exactly when
`no_passes % 3 = 1`, but not for other pass counts. -/
theorem C1_pass_schedule_amended (st : CodeBlockDecoder) (c : Coder)
    (sc' : CodeBlockDecoder × Coder) (h : st.decode c = .ok sc') :
    sc'.1.passTrace = st.passTrace ++ specSchedule st.no_passes st.bit_plane_shift ∧
    sc'.1.passTrace.length =
      st.passTrace.length + (1 + 3 * ((st.no_passes - 1 + 2) / 3)) ∧
    (st.no_passes % 3 = 1 →
      sc'.1.passTrace.length = st.passTrace.length + st.no_passes) := by
  obtain ⟨_, _, _, _, hlen, _, hpt, _⟩ := decode_frame h
  have hsched : sc'.1.passTrace = st.passTrace ++ specSchedule st.no_passes st.bit_plane_shift := by
    rw [hpt]
    unfold specSchedule
    rw [tripletEvents_eq_spec _ _ hlen]
  refine ⟨hsched, ?_, ?_⟩
  · rw [hsched, List.length_append, specSchedule_length]
  · intro hmod
    rw [hsched, List.length_append, specSchedule_length]
    omega

/-- Witness for C1 (amended): a concrete single-pass decode of a fresh 1×4
block follows the schedule and consumes exactly one (cleanup) pass. -/
theorem C1_pass_schedule_amended_witness :
    passesOf (wit4St.decode zeroCoder) =
      .ok (wit4St.passTrace ++ specSchedule wit4St.no_passes wit4St.bit_plane_shift) ∧
    (1 : Nat) % 3 = 1 := by
  constructor
  · cases hrun : wit4St.decode zeroCoder with
    | error e =>
      have hnone : errOf (wit4St.decode zeroCoder) = none := rfl
      rw [hrun] at hnone
      simp [errOf] at hnone
    | ok sc' =>
      have hc := C1_pass_schedule_amended wit4St zeroCoder sc' hrun
      simp [passesOf, hrun, Except.map, hc.1]
  · decide

/-- Counterexample to C1 as stated: with `no_passes = 2` (and plenty of
bit-planes) the decoder consumes 4 passes — a cleanup plus one full triplet —
not 2: the triplet loop always rounds the remaining passes up to whole
triplets. -/
theorem C1_counterexample :
    (passesOf (runNew 1 1 .LL 2 9 zeroCoder)).map List.length = .ok 4 ∧ (4 : Nat) ≠ 2 :=
  ⟨rfl, by decide⟩

/-! ## The error type: only aborts (panics) ever escape; the source never
constructs its `CodeBlockDecodeError`. -/

theorem notCBDF_ok {α : Type} (a : α) : NotCBDF (.ok a : Except DecErr α) := by
  simp [NotCBDF]

theorem notCBDF_abort {α : Type} : NotCBDF (.error .abort : Except DecErr α) := by
  simp [NotCBDF]

theorem notCBDF_bind {α β : Type} {r : Except DecErr α} {f : α → Except DecErr β}
    (h1 : NotCBDF r) (h2 : ∀ a, NotCBDF (f a)) : NotCBDF (r.bind f) := by
  cases r with
  | error e => simpa [NotCBDF, Except.bind] using h1
  | ok a => exact h2 a

theorem notCBDF_map {α β : Type} {r : Except DecErr α} (f : α → β)
    (h1 : NotCBDF r) : NotCBDF (r.map f) := by
  cases r with
  | error e => simpa [NotCBDF, Except.map] using h1
  | ok a => simp [NotCBDF, Except.map]

theorem i16Shl1_notCBDF (s : Nat) : NotCBDF (i16Shl1 s) := by
  simp only [NotCBDF, i16Shl1]; split <;> simp

theorem i16Asr_notCBDF (v : Int) (s : Nat) : NotCBDF (i16Asr v s) := by
  simp only [NotCBDF, i16Asr]; split <;> simp

theorem u8Shl_notCBDF (b s : Nat) : NotCBDF (u8Shl b s) := by
  simp only [NotCBDF, u8Shl]; split <;> simp

theorem coeff_set_notCBDF (st : CodeBlockDecoder) (y x : Int) (co : Coeff) :
    NotCBDF (coeff_set st y x co) := by
  simp only [NotCBDF, coeff_set]; split <;> simp

theorem contribution_notCBDF (a b : Coeff) : NotCBDF (contribution a b) := by
  simp only [NotCBDF, contribution]
  repeat' split
  all_goals simp

theorem sign_context_notCBDF (st : CodeBlockDecoder) (y x : Int) :
    NotCBDF (sign_context st y x) := by
  unfold sign_context
  apply notCBDF_bind (contribution_notCBDF _ _)
  intro vc
  apply notCBDF_bind (contribution_notCBDF _ _)
  intro hc
  simp only [NotCBDF]
  repeat' split
  all_goals simp

theorem sigTableLLLH_notCBDF (h v d : Nat) : NotCBDF (sigTableLLLH h v d) := by
  simp only [NotCBDF, sigTableLLLH]
  split <;> simp

theorem sigTableHL_notCBDF (h v d : Nat) : NotCBDF (sigTableHL h v d) := by
  simp only [NotCBDF, sigTableHL]
  split <;> simp

theorem sigTableHH_notCBDF (hv d : Nat) : NotCBDF (sigTableHH hv d) := by
  simp only [NotCBDF, sigTableHH]
  repeat' split
  all_goals simp

theorem significance_context_notCBDF (st : CodeBlockDecoder) (y x : Int) :
    NotCBDF (significance_context st y x) := by
  unfold significance_context
  split
  · exact sigTableLLLH_notCBDF _ _ _
  · exact sigTableLLLH_notCBDF _ _ _
  · exact sigTableHL_notCBDF _ _ _
  · exact sigTableHH_notCBDF _ _

theorem make_significant_notCBDF (st : CodeBlockDecoder) (y x : Int) :
    NotCBDF (make_significant st y x) := by
  unfold make_significant
  split
  · exact notCBDF_bind (i16Shl1_notCBDF _) fun v => coeff_set_notCBDF _ _ _ _
  · exact notCBDF_abort

theorem is_bit_plane_set_notCBDF (st : CodeBlockDecoder) (y x : Int) :
    NotCBDF (is_bit_plane_set st y x) := by
  unfold is_bit_plane_set
  split
  · exact notCBDF_abort
  · exact notCBDF_map _ (i16Asr_notCBDF _ _)

theorem significance_decode_ctx_notCBDF (cx : Nat) (st : CodeBlockDecoder)
    (c : Coder) (y x : Int) : NotCBDF (significance_decode_ctx cx st c y x) := by
  unfold significance_decode_ctx
  dsimp only
  split
  · exact notCBDF_map _ (make_significant_notCBDF _ _ _)
  · exact notCBDF_ok _

theorem significance_decode_notCBDF (st : CodeBlockDecoder) (c : Coder) (y x : Int) :
    NotCBDF (significance_decode st c y x) := by
  unfold significance_decode
  split
  · split
    · exact notCBDF_ok _
    · exact notCBDF_bind (significance_context_notCBDF _ _ _)
        fun cx => significance_decode_ctx_notCBDF _ _ _ _ _
  · exact notCBDF_abort

theorem decode_sign_bit_notCBDF (st : CodeBlockDecoder) (c : Coder) (y x : Int) :
    NotCBDF (decode_sign_bit st c y x) := by
  unfold decode_sign_bit
  apply notCBDF_bind (sign_context_notCBDF _ _ _)
  intro cxor
  dsimp only
  split
  · exact notCBDF_map _ (coeff_set_notCBDF _ _ _ _)
  · exact notCBDF_abort

theorem magnitude_context_notCBDF (st : CodeBlockDecoder) (y x : Int) :
    NotCBDF (magnitude_context st y x) := by
  unfold magnitude_context
  split
  · apply notCBDF_bind (i16Asr_notCBDF _ _)
    intro sv
    split
    · exact notCBDF_ok _
    · exact notCBDF_ok _
  · exact notCBDF_ok _

theorem magnitude_decode_notCBDF (st : CodeBlockDecoder) (c : Coder) (y x : Int) :
    NotCBDF (magnitude_decode st c y x) := by
  unfold magnitude_decode
  apply notCBDF_bind (magnitude_context_notCBDF _ _ _)
  intro cx
  dsimp only
  split
  · exact notCBDF_abort
  · exact notCBDF_bind (u8Shl_notCBDF _ _) fun add => notCBDF_map _ (coeff_set_notCBDF _ _ _ _)

theorem loopM_notCBDF
    {f : Int → CodeBlockDecoder × Coder → Except DecErr (CodeBlockDecoder × Coder)}
    (hf : ∀ i sc, NotCBDF (f i sc)) :
    ∀ (l : List Int) (sc : CodeBlockDecoder × Coder), NotCBDF (loopM f l sc) := by
  intro l
  induction l with
  | nil => intro sc; exact notCBDF_ok _
  | cons i rest ih => intro sc; exact notCBDF_bind (hf i sc) fun sc1 => ih sc1

theorem cleanupCell_notCBDF (x y : Int) (sc : CodeBlockDecoder × Coder) :
    NotCBDF (cleanupCell x y sc) := by
  unfold cleanupCell
  split
  · exact notCBDF_ok _
  · exact notCBDF_bind (significance_decode_notCBDF _ _ _ _) fun r => by
      split
      · exact decode_sign_bit_notCBDF _ _ _ _
      · exact notCBDF_ok _

theorem cleanupColumn_notCBDF (b x : Int) (sc : CodeBlockDecoder × Coder) :
    NotCBDF (cleanupColumn b x sc) := by
  unfold cleanupColumn
  dsimp only
  split
  · split
    · exact notCBDF_ok _
    · split
      · exact notCBDF_bind (make_significant_notCBDF _ _ _) fun st1 =>
          notCBDF_bind (decode_sign_bit_notCBDF _ _ _ _) fun sc2 =>
            loopM_notCBDF (fun y q => cleanupCell_notCBDF x y q) _ _
      · exact notCBDF_abort
  · exact loopM_notCBDF (fun y q => cleanupCell_notCBDF x y q) _ _

theorem sigCell_notCBDF (x y : Int) (sc : CodeBlockDecoder × Coder) :
    NotCBDF (sigCell x y sc) := by
  unfold sigCell
  dsimp only
  split
  · exact notCBDF_ok _
  · exact notCBDF_bind (significance_context_notCBDF _ _ _) fun cx => by
      split
      · exact notCBDF_ok _
      · exact notCBDF_bind (significance_decode_ctx_notCBDF _ _ _ _ _) fun r => by
          split
          · exact decode_sign_bit_notCBDF _ _ _ _
          · exact notCBDF_map _ (coeff_set_notCBDF _ _ _ _)

theorem refineCell_notCBDF (x y : Int) (sc : CodeBlockDecoder × Coder) :
    NotCBDF (refineCell x y sc) := by
  unfold refineCell
  dsimp only
  split
  · exact notCBDF_ok _
  · exact notCBDF_bind (is_bit_plane_set_notCBDF _ _ _) fun bs => by
      split
      · exact notCBDF_ok _
      · exact magnitude_decode_notCBDF _ _ _ _

theorem pass_cleanup_notCBDF (sc : CodeBlockDecoder × Coder) :
    NotCBDF (pass_cleanup sc) := by
  unfold pass_cleanup
  exact loopM_notCBDF
    (fun b q => loopM_notCBDF (fun x q2 => cleanupColumn_notCBDF b x q2) _ _) _ _

theorem pass_significance_notCBDF (sc : CodeBlockDecoder × Coder) :
    NotCBDF (pass_significance sc) := by
  unfold pass_significance
  exact loopM_notCBDF
    (fun b q => loopM_notCBDF
      (fun x q2 => loopM_notCBDF (fun y q3 => sigCell_notCBDF x y q3) _ _) _ _) _ _

theorem pass_refinement_notCBDF (sc : CodeBlockDecoder × Coder) :
    NotCBDF (pass_refinement sc) := by
  unfold pass_refinement
  exact loopM_notCBDF
    (fun b q => loopM_notCBDF
      (fun x q2 => loopM_notCBDF (fun y q3 => refineCell_notCBDF x y q3) _ _) _ _) _ _

theorem decShift_notCBDF (st : CodeBlockDecoder) : NotCBDF (decShift st) := by
  simp only [NotCBDF, decShift]; split <;> simp

theorem tripletLoop_notCBDF :
    ∀ (l : List Nat) (sc : CodeBlockDecoder × Coder), NotCBDF (tripletLoop l sc) := by
  intro l
  induction l with
  | nil => intro sc; exact notCBDF_ok _
  | cons hd rest ih =>
    intro sc
    exact notCBDF_bind (decShift_notCBDF _) fun st1 =>
      notCBDF_bind (pass_significance_notCBDF _) fun sc2 =>
        notCBDF_bind (pass_refinement_notCBDF _) fun sc3 =>
          notCBDF_bind (pass_cleanup_notCBDF _) fun sc4 => ih sc4

/-- C8 (amended): `decode` never reports a failure through its `Result`: the
`CodeBlockDecodeError` type is never constructed, so no decode — however it
fails internally — returns `CodeBlockDecodeFailure` to the caller.  Failure
modes (exhausted magnitude budget, invariant violations) abort via
`panic!`/`assert!`/checked arithmetic instead, and a run that completes
returns Ok. -/
theorem C8_decode_error_amended (st : CodeBlockDecoder) (c : Coder) :
    st.decode c ≠ .error .codeBlockDecodeFailure := by
  have h : NotCBDF (st.decode c) := by
    unfold CodeBlockDecoder.decode
    exact notCBDF_bind (pass_cleanup_notCBDF _) fun sc1 => tripletLoop_notCBDF _ _
  exact h

/-- Counterexample to C8 as stated: exhausting the magnitude budget (here
`M_b = 1` with `no_passes = 4`, so the triplet loop must decrement
`bit_plane_shift` below zero) makes the decode abort — a `u8` underflow panic —
instead of returning the claimed `CodeBlockDecodeFailure` error. -/
theorem C8_counterexample :
    errOf (runNew 1 1 .LL 4 1 zeroCoder) = some .abort ∧
      some DecErr.abort ≠ some DecErr.codeBlockDecodeFailure :=
  ⟨rfl, by decide⟩

/-! ## Neighbour-count bounds and the Table D.1 equivalence -/

theorem hCount_lt (st : CodeBlockDecoder) (y x : Int) : hCount st y x < 3 := by
  unfold hCount
  have := Bool.toNat_le (is_significant st y (x - 1))
  have := Bool.toNat_le (is_significant st y (x + 1))
  omega

theorem vCount_lt (st : CodeBlockDecoder) (y x : Int) : vCount st y x < 3 := by
  unfold vCount
  have := Bool.toNat_le (is_significant st (y - 1) x)
  have := Bool.toNat_le (is_significant st (y + 1) x)
  omega

theorem dCount_lt (st : CodeBlockDecoder) (y x : Int) : dCount st y x < 5 := by
  unfold dCount
  have := Bool.toNat_le (is_significant st (y - 1) (x - 1))
  have := Bool.toNat_le (is_significant st (y - 1) (x + 1))
  have := Bool.toNat_le (is_significant st (y + 1) (x - 1))
  have := Bool.toNat_le (is_significant st (y + 1) (x + 1))
  omega

theorem tableLLLH_eq : ∀ h < 3, ∀ v < 3, ∀ d < 5,
    sigTableLLLH h v d = .ok (specLLLH h v d) := by decide

theorem tableHL_eq : ∀ h < 3, ∀ v < 3, ∀ d < 5,
    sigTableHL h v d = .ok (specLLLH v h d) := by decide

theorem tableHH_eq : ∀ hv < 5, ∀ d < 5,
    sigTableHH hv d = .ok (specHH hv d) := by decide

/-- C5: the significance context follows ITU-T T.800 Table D.1: for LL and LH
the claimed `(h, v, d)` map, for HL the same map with the roles of `h` and `v`
swapped, and for HH the claimed `(h + v, d)` map, where the neighbour counts
treat out-of-lattice neighbours as insignificant (their `is_significant` is
false) and the wildcard `panic!` arms are unreachable. -/
theorem C5_significance_context (st : CodeBlockDecoder) (y x : Int) :
    significance_context st y x =
      .ok (specSigTable st.subband (hCount st y x) (vCount st y x) (dCount st y x)) := by
  have hh := hCount_lt st y x
  have hv := vCount_lt st y x
  have hd := dCount_lt st y x
  unfold significance_context specSigTable
  cases st.subband with
  | LL => exact tableLLLH_eq _ hh _ hv _ hd
  | LH => exact tableLLLH_eq _ hh _ hv _ hd
  | HL => exact tableHL_eq _ hh _ hv _ hd
  | HH => exact tableHH_eq _ (by omega) _ hd

/-! ## Sign contributions and the Table D.3 equivalence -/

theorem sign_contribution_cases (a : Coeff) :
    a.sign_contribution = -1 ∨ a.sign_contribution = 0 ∨ a.sign_contribution = 1 := by
  cases a with
  | Insignificant _ => simp [Coeff.sign_contribution]
  | Significant v n => cases n <;> simp [Coeff.sign_contribution]

theorem contribution_eq (a b : Coeff) :
    contribution a b = .ok (specClamp (a.sign_contribution + b.sign_contribution)) := by
  rcases sign_contribution_cases a with ha | ha | ha <;>
    rcases sign_contribution_cases b with hb | hb | hb <;>
      simp [contribution, specClamp, ha, hb]

theorem specClamp_cases (t : Int) :
    specClamp t = -1 ∨ specClamp t = 0 ∨ specClamp t = 1 := by
  unfold specClamp
  omega

theorem coeff_at_significant_inBounds {st : CodeBlockDecoder} {y x : Int}
    {v : Int} {n : Bool} (h : coeff_at st y x = .Significant v n) :
    outBounds st y x = false := by
  unfold coeff_at at h
  by_contra hb
  simp only [Bool.not_eq_false] at hb
  rw [hb] at h
  simp at h

theorem sign_context_eq (st : CodeBlockDecoder) (y x : Int) :
    sign_context st y x = .ok (specSignCtx (hContribOf st y x) (vContribOf st y x)) := by
  unfold sign_context hContribOf vContribOf
  dsimp only
  rw [contribution_eq, contribution_eq]
  simp only [Except.bind]
  rcases specClamp_cases ((coeff_at st y (x - 1)).sign_contribution +
      (coeff_at st y (x + 1)).sign_contribution) with hh | hh | hh <;>
    rcases specClamp_cases ((coeff_at st (y - 1) x).sign_contribution +
        (coeff_at st (y + 1) x).sign_contribution) with hv | hv | hv <;>
      rw [hh, hv] <;> norm_num [specSignCtx]

/-- C6: the sign decode clamps the summed horizontal and vertical neighbour
contributions (insignificant 0, significant ±1) to `{-1, 0, +1}`, maps the
pair through Table D.3 — contexts 9…13 with an xor flag, sign-negated pairs
sharing the context with xor flag 1 — and sets the cell's `is_negative` to
`(decoded_bit XOR xor_flag) != 0` after one decode with that context. -/
theorem C6_sign_context (st : CodeBlockDecoder) (c : Coder) (y x : Int) :
    sign_context st y x = .ok (specSignCtx (hContribOf st y x) (vContribOf st y x)) ∧
    (∀ (v : Int) (neg : Bool), coeff_at st y x = .Significant v neg →
      decode_sign_bit st c y x = .ok
        (updCoeff st y x (.Significant v (decide ((bitAt c ^^^
            (specSignCtx (hContribOf st y x) (vContribOf st y x)).2) ≠ 0))),
         c.advance [(specSignCtx (hContribOf st y x) (vContribOf st y x)).1])) := by
  refine ⟨sign_context_eq st y x, ?_⟩
  intro v neg hco
  have hob := coeff_at_significant_inBounds hco
  unfold decode_sign_bit
  rw [sign_context_eq]
  simp only [Except.bind]
  rw [hco]
  simp [coeff_set, hob, Except.map, Coder.decodeBit, Coder.advance, bitAt]

/-- Witness for C6 at a concrete cell: a lone significant cell has clamped
contributions (0, 0), hence context 9 with xor flag 0, and a decoded 0 bit
leaves it non-negative. -/
theorem C6_sign_context_witness :
    sign_context wit7St 0 0 = .ok (specSignCtx (hContribOf wit7St 0 0) (vContribOf wit7St 0 0)) ∧
    decode_sign_bit wit7St zeroCoder 0 0 = .ok
      (updCoeff wit7St 0 0 (.Significant 8 (decide ((bitAt zeroCoder ^^^
          (specSignCtx (hContribOf wit7St 0 0) (vContribOf wit7St 0 0)).2) ≠ 0))),
       zeroCoder.advance [(specSignCtx (hContribOf wit7St 0 0) (vContribOf wit7St 0 0)).1]) := by
  have h := C6_sign_context wit7St zeroCoder 0 0
  exact ⟨h.1, h.2 8 false rfl⟩

/-- C9: context-forming neighbour lookups outside the lattice yield the
`Insignificant(MAX)` sentinel — insignificant, with sign contribution 0 —
and are never errors; for in-lattice indices (given the `width * height`
cell-count invariant) the row-major index is a genuine in-bounds access of
the coefficient array. -/
theorem C9_out_of_lattice (st : CodeBlockDecoder) (y x : Int) :
    (outBounds st y x = true →
      coeff_at st y x = .Insignificant 255 ∧
      is_significant st y x = false ∧
      (coeff_at st y x).sign_contribution = 0) ∧
    (st.coefficients.length = (st.width * st.height).toNat →
      outBounds st y x = false →
      (st.width * y + x).toNat < st.coefficients.length ∧
      coeff_at st y x =
        st.coefficients.getD (st.width * y + x).toNat (.Insignificant 255)) := by
  constructor
  · intro hob
    refine ⟨by simp [coeff_at, hob], by simp [is_significant, hob], ?_⟩
    simp [coeff_at, hob, Coeff.sign_contribution]
  · intro hlen hob
    have hb : ((0 ≤ x ∧ x < st.width) ∧ 0 ≤ y) ∧ y < st.height := by
      simpa [outBounds] using hob
    obtain ⟨⟨⟨hx0, hxw⟩, hy0⟩, hyh⟩ := hb
    have hp0 : 0 ≤ st.width * y := mul_nonneg (by omega) (by omega)
    have h1 : st.width * (y + 1) = st.width * y + st.width := by ring
    have h2 : st.width * (y + 1) ≤ st.width * st.height :=
      mul_le_mul_of_nonneg_left (by omega) (by omega)
    refine ⟨?_, by simp [coeff_at, hob]⟩
    rw [hlen]
    omega

/-- Witness for C9: in a concrete 1×1 block, the left neighbour of the only
cell reads as the insignificant sentinel, and the cell itself is an in-bounds
array access. -/
theorem C9_out_of_lattice_witness :
    (coeff_at wit7St 0 (-1) = .Insignificant 255 ∧
      is_significant wit7St 0 (-1) = false ∧
      (coeff_at wit7St 0 (-1)).sign_contribution = 0) ∧
    ((wit7St.width * 0 + 0 : Int)).toNat < wit7St.coefficients.length := by
  exact ⟨(C9_out_of_lattice wit7St 0 (-1)).1 rfl,
    ((C9_out_of_lattice wit7St 0 0).2 rfl rfl).1⟩

theorem rowMajor_index_lt {st : CodeBlockDecoder} {y x : Int}
    (hlen : st.coefficients.length = (st.width * st.height).toNat)
    (hob : outBounds st y x = false) :
    (st.width * y + x).toNat < st.coefficients.length := by
  have hb : ((0 ≤ x ∧ x < st.width) ∧ 0 ≤ y) ∧ y < st.height := by
    simpa [outBounds] using hob
  obtain ⟨⟨⟨hx0, hxw⟩, hy0⟩, hyh⟩ := hb
  have hp0 : 0 ≤ st.width * y := mul_nonneg (by omega) (by omega)
  have h1 : st.width * (y + 1) = st.width * y + st.width := by ring
  have h2 : st.width * (y + 1) ≤ st.width * st.height :=
    mul_le_mul_of_nonneg_left (by omega) (by omega)
  rw [hlen]
  omega

theorem coeff_at_updCoeff_self {st : CodeBlockDecoder} {y x : Int} {co : Coeff}
    (hlen : st.coefficients.length = (st.width * st.height).toNat)
    (hob : outBounds st y x = false) :
    coeff_at (updCoeff st y x co) y x = co := by
  have hidx := rowMajor_index_lt hlen hob
  have hob2 : outBounds (updCoeff st y x co) y x = outBounds st y x := rfl
  unfold coeff_at
  rw [hob2, hob]
  simp only [updCoeff, Bool.false_eq_true, if_false]
  simp [List.getD_eq_getElem?_getD, List.getElem?_set_self',
    List.getElem?_eq_getElem (by simpa using hidx : (st.width * y + x).toNat <
      (st.coefficients.set (st.width * y + x).toNat co).length)]

/-- C4: in the significance propagation pass each visited cell is handled as
follows: an already-significant cell is skipped untouched; a cell with
significance context 0 is skipped without consuming a bit; otherwise one bit
is decoded with that context — on 1 the cell is made significant and a sign
bit is decoded, on 0 the cell is tagged `Insignificant(bit_plane_shift)`,
which makes the cleanup pass's `significance_decode` at the same bit-plane
skip the cell without consuming a decoder bit. -/
theorem C4_significance_cell (st : CodeBlockDecoder) (c : Coder) (x y : Int) :
    (is_significant st y x = true → sigCell x y (st, c) = .ok (st, c)) ∧
    (is_significant st y x = false → significance_context st y x = .ok 0 →
      sigCell x y (st, c) = .ok (st, c)) ∧
    (∀ k, is_significant st y x = false → significance_context st y x = .ok k →
      k ≠ 0 → bitAt c = 1 →
      sigCell x y (st, c) =
        (make_significant st y x).bind fun st1 => decode_sign_bit st1 (c.advance [k]) y x) ∧
    (∀ k, is_significant st y x = false → significance_context st y x = .ok k →
      k ≠ 0 → bitAt c = 0 → outBounds st y x = false →
      sigCell x y (st, c) =
        .ok (updCoeff st y x (.Insignificant st.bit_plane_shift), c.advance [k]) ∧
      (st.coefficients.length = (st.width * st.height).toNat →
        ∀ c2, significance_decode
            (updCoeff st y x (.Insignificant st.bit_plane_shift)) c2 y x =
          .ok (false, updCoeff st y x (.Insignificant st.bit_plane_shift), c2))) := by
  refine ⟨?_, ?_, ?_, ?_⟩
  · intro hsig
    simp [sigCell, hsig]
  · intro hsig hctx
    simp [sigCell, hsig, hctx, Except.bind]
  · intro k hsig hctx hk hbit
    have hb : c.bits c.pos = true := by
      by_contra hb
      simp only [Bool.not_eq_true] at hb
      simp [bitAt, hb] at hbit
    unfold sigCell
    dsimp only
    rw [hsig]
    simp only [Bool.false_eq_true, if_false]
    rw [hctx]
    simp only [Except.bind, hk, if_false]
    unfold significance_decode_ctx
    dsimp only
    simp only [Coder.decodeBit, hb, if_true, reduceIte]
    cases hmk : make_significant st y x with
    | error e => simp [Except.map, Except.bind, hmk]
    | ok st1 => simp [Except.map, Except.bind, hmk, Coder.advance]
  · intro k hsig hctx hk hbit hob
    have hb : c.bits c.pos = false := by
      by_contra hb
      simp only [Bool.not_eq_false] at hb
      simp [bitAt, hb] at hbit
    constructor
    · unfold sigCell
      dsimp only
      rw [hsig]
      simp only [Bool.false_eq_true, if_false]
      rw [hctx]
      simp only [Except.bind, hk, if_false]
      unfold significance_decode_ctx
      dsimp only
      simp only [Coder.decodeBit, hb, Bool.false_eq_true, if_false, reduceIte]
      simp [coeff_set, hob, Except.map, Except.bind, Coder.advance]
    · intro hlen c2
      have hat : coeff_at (updCoeff st y x (Coeff.Insignificant st.bit_plane_shift)) y x =
          Coeff.Insignificant st.bit_plane_shift := coeff_at_updCoeff_self hlen hob
      unfold significance_decode
      rw [hat]
      have hshift : (updCoeff st y x (Coeff.Insignificant st.bit_plane_shift)).bit_plane_shift =
          st.bit_plane_shift := rfl
      simp [hshift]

/-- Witness for C4 at concrete cells: a fresh cell with context 0 is skipped;
a cell below a significant neighbour (context 3) decoding a 0 bit is tagged
insignificant at the current shift and is then skipped by
`significance_decode` without consuming a bit. -/
theorem C4_significance_cell_witness :
    sigCell 0 0 (wit4St, zeroCoder) = .ok (wit4St, zeroCoder) ∧
    sigCell 0 1 (wit4bSt, zeroCoder) =
      .ok (updCoeff wit4bSt 1 0 (.Insignificant wit4bSt.bit_plane_shift),
        zeroCoder.advance [3]) ∧
    significance_decode (updCoeff wit4bSt 1 0 (.Insignificant wit4bSt.bit_plane_shift))
        oneCoder 1 0 =
      .ok (false, updCoeff wit4bSt 1 0 (.Insignificant wit4bSt.bit_plane_shift), oneCoder) := by
  have h2 := (C4_significance_cell wit4St zeroCoder 0 0).2.1 rfl rfl
  have h4 := (C4_significance_cell wit4bSt zeroCoder 0 1).2.2.2 3 rfl rfl
    (by decide) rfl rfl
  exact ⟨h2, h4.1, h4.2 rfl oneCoder⟩

theorem int_lor_ofNat {v : Int} (hv : 0 ≤ v) (m : Nat) :
    Int.lor v (Int.ofNat m) = Int.ofNat (v.toNat ||| m) := by
  obtain ⟨n, rfl⟩ := Int.eq_ofNat_of_zero_le hv
  rfl

theorem magNeighbourCtx_eq_spec (st : CodeBlockDecoder) (y x : Int) :
    magNeighbourCtx st y x = specMagCtx st y x := by
  unfold magNeighbourCtx specMagCtx hCount vCount dCount
  dsimp only
  split_ifs <;> omega

/-- C7 (amended): in the magnitude refinement pass insignificant cells and
cells whose current bit-plane bit is already set are skipped; a refined cell's
context is 16 once the magnitude shifted right by `bit_plane_shift + 1`
differs from 1 and otherwise 15/14 by neighbour significance; the decoded bit
is OR-ed into the magnitude at `bit_plane_shift` when `bit_plane_shift ≤ 7` —
for larger shifts the `u8` expression `b << bit_plane_shift` aborts instead of
performing the claimed OR. -/
theorem C7_refinement_amended (st : CodeBlockDecoder) (c : Coder) (x y : Int) :
    (is_significant st y x = false → refineCell x y (st, c) = .ok (st, c)) ∧
    (is_bit_plane_set st y x = .ok true → refineCell x y (st, c) = .ok (st, c)) ∧
    (∀ (v : Int) (neg : Bool), coeff_at st y x = .Significant v neg →
      st.bit_plane_shift ≤ 14 →
      magnitude_context st y x =
        .ok (if Int.fdiv v ((2 : Int) ^ (1 + st.bit_plane_shift)) = 1
          then specMagCtx st y x else 16)) ∧
    (∀ (v : Int) (neg : Bool), coeff_at st y x = .Significant v neg →
      st.bit_plane_shift ≤ 7 → 0 ≤ v →
      ∀ k, magnitude_context st y x = .ok k →
      magnitude_decode st c y x = .ok
        (updCoeff st y x (.Significant
          (Int.ofNat (v.toNat ||| (bitAt c <<< st.bit_plane_shift))) neg),
         c.advance [k])) := by
  refine ⟨?_, ?_, ?_, ?_⟩
  · intro hsig
    simp [refineCell, hsig]
  · intro hset
    simp [refineCell, hset, Except.bind]
  · intro v neg hco hsh
    have h16 : ¬ 16 ≤ 1 + st.bit_plane_shift := by omega
    unfold magnitude_context
    rw [hco]
    dsimp only
    unfold i16Asr
    rw [if_neg h16]
    simp only [Except.bind]
    rw [magNeighbourCtx_eq_spec]
    by_cases hsv : Int.fdiv v ((2 : Int) ^ (1 + st.bit_plane_shift)) = 1
    · simp [hsv]
    · simp [hsv]
  · intro v neg hco hsh hv0 k hk
    have hob := coeff_at_significant_inBounds hco
    have h8 : ¬ 8 ≤ st.bit_plane_shift := by omega
    unfold magnitude_decode
    rw [hk]
    simp only [Except.bind]
    rw [hco]
    dsimp only
    unfold u8Shl
    rw [if_neg h8]
    simp only [Except.bind]
    rw [int_lor_ofNat hv0]
    simp [coeff_set, hob, Except.map, Coder.decodeBit, Coder.advance, bitAt]

/-- Witness for C7 (amended) at a concrete cell: value 8 at shift 2 is on its
first refinement (8 >> 3 = 1), gets neighbour context 14, and a decoded 1 bit
ORs `1 << 2` into the magnitude, giving 12. -/
theorem C7_refinement_amended_witness :
    magnitude_context wit7St 0 0 =
      .ok (if Int.fdiv 8 ((2 : Int) ^ (1 + wit7St.bit_plane_shift)) = 1
        then specMagCtx wit7St 0 0 else 16) ∧
    magnitude_decode wit7St oneCoder 0 0 = .ok
      (updCoeff wit7St 0 0 (.Significant
        (Int.ofNat ((8 : Int).toNat ||| (bitAt oneCoder <<< wit7St.bit_plane_shift))) false),
       oneCoder.advance [14]) := by
  have h := C7_refinement_amended wit7St oneCoder 0 0
  exact ⟨h.2.2.1 8 false rfl (by decide), h.2.2.2 8 false rfl (by decide) (by decide) 14 rfl⟩

/-- Counterexample to C7 as stated: a significant, unset-bit cell visited by
refinement at `bit_plane_shift = 13` makes `magnitude_decode` abort (the `u8`
shift `b << 13` overflows) — the decoded bit is never OR-ed into the
magnitude. -/
theorem C7_counterexample :
    is_significant cex7St 0 0 = true ∧
    is_bit_plane_set cex7St 0 0 = .ok false ∧
    errOf (magnitude_decode cex7St zeroCoder 0 0) = some .abort :=
  ⟨rfl, rfl, rfl⟩

/-! ## Context bounds and the low-context trace property of per-cell cleanup
work (neither RUN_LEN nor UNIFORM is consumed by it). -/

theorem specLLLH_le (h v d : Nat) : specLLLH h v d ≤ 8 := by
  unfold specLLLH
  split_ifs <;> omega

theorem specHH_le (hv d : Nat) : specHH hv d ≤ 8 := by
  unfold specHH
  split_ifs <;> omega

theorem significance_context_le {st : CodeBlockDecoder} {y x : Int} {k : Nat}
    (h : significance_context st y x = .ok k) : k ≤ 8 := by
  have hh := hCount_lt st y x
  have hv := vCount_lt st y x
  have hd := dCount_lt st y x
  unfold significance_context at h
  split at h
  · rw [tableLLLH_eq _ hh _ hv _ hd] at h
    cases h
    exact specLLLH_le _ _ _
  · rw [tableLLLH_eq _ hh _ hv _ hd] at h
    cases h
    exact specLLLH_le _ _ _
  · rw [tableHL_eq _ hh _ hv _ hd] at h
    cases h
    exact specLLLH_le _ _ _
  · rw [tableHH_eq _ (by omega) _ hd] at h
    cases h
    exact specHH_le _ _

theorem specSignCtx_le (hc vc : Int) : (specSignCtx hc vc).1 ≤ 13 := by
  unfold specSignCtx
  split_ifs <;> simp

theorem sign_context_le {st : CodeBlockDecoder} {y x : Int} {p : Nat × Nat}
    (h : sign_context st y x = .ok p) : p.1 ≤ 13 := by
  rw [sign_context_eq] at h
  cases h
  exact specSignCtx_le _ _

theorem traceLowExt_refl (c : Coder) : TraceLowExt c c := by
  exact ⟨[], by simp, by simp⟩

theorem traceLowExt_trans {c1 c2 c3 : Coder} (h1 : TraceLowExt c1 c2)
    (h2 : TraceLowExt c2 c3) : TraceLowExt c1 c3 := by
  obtain ⟨e1, he1, hb1⟩ := h1
  obtain ⟨e2, he2, hb2⟩ := h2
  refine ⟨e1 ++ e2, by rw [he2, he1, List.append_assoc], ?_⟩
  intro t ht
  rcases List.mem_append.mp ht with hm | hm
  · exact hb1 t hm
  · exact hb2 t hm

theorem decodeBit_traceLow {c : Coder} {cx : Nat} (hcx : cx < 17) :
    TraceLowExt c (c.decodeBit cx).2 := by
  refine ⟨[cx], by simp [Coder.decodeBit], ?_⟩
  intro t ht
  simp at ht
  omega

theorem significance_decode_ctx_traceLow {cx : Nat} {st : CodeBlockDecoder}
    {c : Coder} {y x : Int} {r : Bool × CodeBlockDecoder × Coder} (hcx : cx < 17)
    (h : significance_decode_ctx cx st c y x = .ok r) : TraceLowExt c r.2.2 := by
  unfold significance_decode_ctx at h
  dsimp only at h
  split at h
  · obtain ⟨st1, _, heq⟩ := map_eq_ok h
    cases heq
    exact decodeBit_traceLow hcx
  · cases h
    exact decodeBit_traceLow hcx

theorem significance_decode_traceLow {st : CodeBlockDecoder} {c : Coder}
    {y x : Int} {r : Bool × CodeBlockDecoder × Coder}
    (h : significance_decode st c y x = .ok r) : TraceLowExt c r.2.2 := by
  unfold significance_decode at h
  split at h
  · split at h
    · cases h
      exact traceLowExt_refl c
    · obtain ⟨cx, hcx, h2⟩ := bind_eq_ok h
      exact significance_decode_ctx_traceLow
        (by have := significance_context_le hcx; omega) h2
  · simp at h

theorem decode_sign_bit_traceLow {st : CodeBlockDecoder} {c : Coder} {y x : Int}
    {sc : CodeBlockDecoder × Coder} (h : decode_sign_bit st c y x = .ok sc) :
    TraceLowExt c sc.2 := by
  unfold decode_sign_bit at h
  obtain ⟨cxor, hcxor, h2⟩ := bind_eq_ok h
  have hle := sign_context_le hcxor
  split at h2
  · obtain ⟨st1, _, heq⟩ := map_eq_ok h2
    cases heq
    exact decodeBit_traceLow (by omega)
  · simp at h2

theorem cleanupCell_traceLow {x y : Int} {sc sc1 : CodeBlockDecoder × Coder}
    (h : cleanupCell x y sc = .ok sc1) : TraceLowExt sc.2 sc1.2 := by
  unfold cleanupCell at h
  split at h
  · cases h
    exact traceLowExt_refl _
  · obtain ⟨r, hr, h2⟩ := bind_eq_ok h
    have t1 := significance_decode_traceLow hr
    split at h2
    · exact traceLowExt_trans t1 (decode_sign_bit_traceLow h2)
    · cases h2
      exact t1

theorem loopM_cleanupCell_traceLow {x : Int} {l : List Int}
    {sc sc1 : CodeBlockDecoder × Coder}
    (h : loopM (fun y sc3 => cleanupCell x y sc3) l sc = .ok sc1) :
    TraceLowExt sc.2 sc1.2 := by
  refine loopM_inv (P := fun q => TraceLowExt sc.2 q.2) ?_ l sc sc1 h (traceLowExt_refl _)
  intro i a b hb hP
  exact traceLowExt_trans hP (cleanupCell_traceLow hb)

theorem intRange_length (lo hi : Int) : (intRange lo hi).length = (hi - lo).toNat := by
  rw [intRange, List.length_map, List.length_range]

theorem filter_four_iff (st : CodeBlockDecoder) (x : Int) (rows : List Int)
    (hle : rows.length ≤ 4) :
    ((rows.filter fun y => ! is_significant st y x).length = 4) ↔
      (rows.length = 4 ∧ ∀ y ∈ rows, is_significant st y x = false) := by
  constructor
  · intro h
    have hfle := List.length_filter_le (fun y => ! is_significant st y x) rows
    have hlen : rows.length = 4 := by omega
    have hself : rows.filter (fun y => ! is_significant st y x) = rows :=
      (List.filter_sublist rows).eq_of_length (by omega)
    refine ⟨hlen, ?_⟩
    intro y hy
    have := List.filter_eq_self.mp hself y hy
    simpa using this
  · rintro ⟨hlen, hall⟩
    have hself : rows.filter (fun y => ! is_significant st y x) = rows := by
      apply List.filter_eq_self.mpr
      intro a ha
      simp [hall a ha]
    rw [hself, hlen]

/-- C3: in a cleanup pass, a 4-row column strip decodes one RUN_LEN bit
exactly when all four cells are insignificant; a 0 run bit skips the column
entirely (one bit consumed, nothing changed); a 1 run bit decodes two UNIFORM
bits forming `c5 = 2a + b`, makes the cell at row `by + c5` significant,
decodes its sign, and handles the remaining insignificant cells from
`by + c5 + 1` on individually with the significance context, each newly
significant one followed by a sign decode (the spec-side `specRunBranch`);
when the run precondition fails, the cells are handled individually and
neither RUN_LEN nor UNIFORM is consumed. -/
theorem C3_cleanup_column (st : CodeBlockDecoder) (c : Coder) (b x : Int) :
    ((intRange b (min (b + 4) st.height)).length = 4 →
      (∀ y ∈ intRange b (min (b + 4) st.height), is_significant st y x = false) →
      (bitAt c = 0 → cleanupColumn b x (st, c) = .ok (st, c.advance [RUN_LEN])) ∧
      (bitAt c = 1 → cleanupColumn b x (st, c) = specRunBranch st c b x)) ∧
    (¬ ((intRange b (min (b + 4) st.height)).length = 4 ∧
        ∀ y ∈ intRange b (min (b + 4) st.height), is_significant st y x = false) →
      cleanupColumn b x (st, c) =
        loopM (fun y sc3 => cleanupCell x y sc3)
          (intRange b (min (b + 4) st.height)) (st, c) ∧
      ∀ sc', cleanupColumn b x (st, c) = .ok sc' → TraceLowExt c sc'.2) := by
  have hle : (intRange b (min (b + 4) st.height)).length ≤ 4 := by
    rw [intRange_length]
    omega
  constructor
  · intro hlen4 hall
    have hcount : ((intRange b (min (b + 4) st.height)).filter
        fun y => ! is_significant st y x).length = 4 :=
      (filter_four_iff st x _ hle).mpr ⟨hlen4, hall⟩
    constructor
    · intro hbit
      have hb : c.bits c.pos = false := by
        by_contra hbc
        simp only [Bool.not_eq_false] at hbc
        simp [bitAt, hbc] at hbit
      unfold cleanupColumn
      dsimp only
      rw [if_pos hcount]
      simp [Coder.decodeBit, hb, Coder.advance]
    · intro hbit
      have hb : c.bits c.pos = true := by
        by_contra hbc
        simp only [Bool.not_eq_true] at hbc
        simp [bitAt, hbc] at hbit
      unfold cleanupColumn specRunBranch
      dsimp only
      rw [if_pos hcount]
      by_cases hb1 : c.bits (c.pos + 1) <;> by_cases hb2 : c.bits (c.pos + 2) <;>
        simp [Coder.decodeBit, hb, hb1, hb2, Coder.advance, List.append_assoc]
  · intro hnot
    have hcount : ¬ ((intRange b (min (b + 4) st.height)).filter
        fun y => ! is_significant st y x).length = 4 := by
      intro hc
      exact hnot ((filter_four_iff st x _ hle).mp hc)
    have heq : cleanupColumn b x (st, c) =
        loopM (fun y sc3 => cleanupCell x y sc3)
          (intRange b (min (b + 4) st.height)) (st, c) := by
      unfold cleanupColumn
      dsimp only
      rw [if_neg hcount]
    refine ⟨heq, ?_⟩
    intro sc' hsc'
    rw [heq] at hsc'
    exact loopM_cleanupCell_traceLow hsc'

/-- Witness for C3: on a fresh 1×4 strip a 0 run bit consumes exactly the
RUN_LEN context and changes nothing, and a 1 run bit follows the spec-side
run branch. -/
theorem C3_cleanup_column_witness :
    cleanupColumn 0 0 (wit4St, zeroCoder) = .ok (wit4St, zeroCoder.advance [RUN_LEN]) ∧
    cleanupColumn 0 0 (wit4St, oneCoder) = specRunBranch wit4St oneCoder 0 0 := by
  have h0 := (C3_cleanup_column wit4St zeroCoder 0 0).1 rfl (by decide)
  have h1 := (C3_cleanup_column wit4St oneCoder 0 0).1 rfl (by decide)
  exact ⟨h0.1 rfl, h1.2 rfl⟩

/-! ## The magnitude-bound invariant: every significant value stays
non-negative and below `2 ^ B`, where `B` bounds `bit_plane_shift + 1`. -/

theorem coeff_at_mem {st : CodeBlockDecoder} {y x : Int} {v : Int} {n : Bool}
    (h : coeff_at st y x = .Significant v n) :
    Coeff.Significant v n ∈ st.coefficients := by
  unfold coeff_at at h
  split at h
  · simp at h
  · rw [List.getD_eq_getElem?_getD] at h
    cases hg : st.coefficients[(st.width * y + x).toNat]? with
    | none => rw [hg] at h; simp at h
    | some co =>
      rw [hg] at h
      simp at h
      rw [h] at hg
      exact List.getElem?_mem hg

theorem valsBounded_updCoeff {B : Nat} {st : CodeBlockDecoder} {y x : Int}
    {co : Coeff} (hv : ValsBounded B st)
    (hco : ∀ v n, co = .Significant v n → 0 ≤ v ∧ v < (2 : Int) ^ B) :
    ValsBounded B (updCoeff st y x co) := by
  intro c hc v n hcn
  rcases List.mem_or_eq_of_mem_set hc with hm | he
  · exact hv c hm v n hcn
  · rw [he] at hcn
    exact hco v n hcn

theorem make_significant_bound {B : Nat} {st : CodeBlockDecoder} {y x : Int}
    {st1 : CodeBlockDecoder} (hB : B ≤ 15) (hs : st.bit_plane_shift + 1 ≤ B)
    (hv : ValsBounded B st) (h : make_significant st y x = .ok st1) :
    ValsBounded B st1 := by
  unfold make_significant at h
  split at h
  · obtain ⟨v, hvv, hset⟩ := bind_eq_ok h
    unfold i16Shl1 at hvv
    rw [if_neg (by omega)] at hvv
    rw [if_neg (by omega : ¬ st.bit_plane_shift = 15)] at hvv
    cases hvv
    rw [coeff_set_ok hset]
    apply valsBounded_updCoeff hv
    intro v' n' he
    cases he
    constructor
    · positivity
    · exact pow_lt_pow_right₀ (by norm_num) (by omega)
  · simp at h

theorem decode_sign_bit_bound {B : Nat} {st : CodeBlockDecoder} {c : Coder}
    {y x : Int} {sc1 : CodeBlockDecoder × Coder} (hv : ValsBounded B st)
    (h : decode_sign_bit st c y x = .ok sc1) : ValsBounded B sc1.1 := by
  unfold decode_sign_bit at h
  obtain ⟨cxor, _, h2⟩ := bind_eq_ok h
  split at h2
  · rename_i v n hco
    obtain ⟨st2, hset, heq⟩ := map_eq_ok h2
    cases heq
    rw [coeff_set_ok hset]
    apply valsBounded_updCoeff hv
    intro v' n' he
    cases he
    exact hv _ (coeff_at_mem hco) _ _ rfl
  · simp at h2

theorem significance_decode_ctx_bound {B : Nat} {cx : Nat} {st : CodeBlockDecoder}
    {c : Coder} {y x : Int} {r : Bool × CodeBlockDecoder × Coder} (hB : B ≤ 15)
    (hs : st.bit_plane_shift + 1 ≤ B) (hv : ValsBounded B st)
    (h : significance_decode_ctx cx st c y x = .ok r) : ValsBounded B r.2.1 := by
  unfold significance_decode_ctx at h
  dsimp only at h
  split at h
  · obtain ⟨st2, hmk, heq⟩ := map_eq_ok h
    cases heq
    exact make_significant_bound hB hs hv hmk
  · cases h
    exact hv

theorem significance_decode_bound {B : Nat} {st : CodeBlockDecoder} {c : Coder}
    {y x : Int} {r : Bool × CodeBlockDecoder × Coder} (hB : B ≤ 15)
    (hs : st.bit_plane_shift + 1 ≤ B) (hv : ValsBounded B st)
    (h : significance_decode st c y x = .ok r) : ValsBounded B r.2.1 := by
  unfold significance_decode at h
  split at h
  · split at h
    · cases h
      exact hv
    · obtain ⟨cx, _, h2⟩ := bind_eq_ok h
      exact significance_decode_ctx_bound hB hs hv h2
  · simp at h

theorem magnitude_decode_bound {B : Nat} {st : CodeBlockDecoder} {c : Coder}
    {y x : Int} {sc1 : CodeBlockDecoder × Coder}
    (hs : st.bit_plane_shift + 1 ≤ B) (hv : ValsBounded B st)
    (h : magnitude_decode st c y x = .ok sc1) : ValsBounded B sc1.1 := by
  unfold magnitude_decode at h
  obtain ⟨cx, _, h2⟩ := bind_eq_ok h
  split at h2
  · simp at h2
  · rename_i v n hco
    obtain ⟨add, hadd, h3⟩ := bind_eq_ok h2
    obtain ⟨st2, hset, heq⟩ := map_eq_ok h3
    cases heq
    rw [coeff_set_ok hset]
    apply valsBounded_updCoeff hv
    intro v' n' he
    cases he
    have hvb := hv _ (coeff_at_mem hco) _ _ rfl
    have hvN : v.toNat < 2 ^ B := by
      have hc : ((2 ^ B : Nat) : Int) = (2 : Int) ^ B := by push_cast; ring
      omega
    have haddN : add < 2 ^ B := by
      unfold u8Shl at hadd
      split at hadd
      · simp at hadd
      · cases hadd
        have hb1 : (c.decodeBit cx).1 ≤ 1 := by
          unfold Coder.decodeBit
          split <;> simp
        calc (c.decodeBit cx).1 <<< st.bit_plane_shift
            ≤ 2 ^ st.bit_plane_shift := by
              rw [Nat.shiftLeft_eq]
              calc (c.decodeBit cx).1 * 2 ^ st.bit_plane_shift
                  ≤ 1 * 2 ^ st.bit_plane_shift := Nat.mul_le_mul_right _ hb1
                _ = 2 ^ st.bit_plane_shift := by ring
          _ < 2 ^ B := Nat.pow_lt_pow_right (by norm_num) (by omega)
    rw [int_lor_ofNat hvb.1, Int.ofNat_eq_natCast]
    have hor := Nat.or_lt_two_pow hvN haddN
    have hc : ((2 ^ B : Nat) : Int) = (2 : Int) ^ B := by push_cast; ring
    constructor
    · exact Int.natCast_nonneg _
    · omega

theorem cleanupCell_bound {B : Nat} {x y : Int} {sc sc1 : CodeBlockDecoder × Coder}
    (hB : B ≤ 15) (hs : sc.1.bit_plane_shift + 1 ≤ B) (hv : ValsBounded B sc.1)
    (h : cleanupCell x y sc = .ok sc1) : ValsBounded B sc1.1 := by
  unfold cleanupCell at h
  split at h
  · cases h
    exact hv
  · obtain ⟨r, hr, h2⟩ := bind_eq_ok h
    have hv1 := significance_decode_bound hB hs hv hr
    split at h2
    · exact decode_sign_bit_bound hv1 h2
    · cases h2
      exact hv1

theorem sigCell_bound {B : Nat} {x y : Int} {sc sc1 : CodeBlockDecoder × Coder}
    (hB : B ≤ 15) (hs : sc.1.bit_plane_shift + 1 ≤ B) (hv : ValsBounded B sc.1)
    (h : sigCell x y sc = .ok sc1) : ValsBounded B sc1.1 := by
  unfold sigCell at h
  dsimp only at h
  split at h
  · cases h
    exact hv
  · obtain ⟨cx, _, h2⟩ := bind_eq_ok h
    split at h2
    · cases h2
      exact hv
    · obtain ⟨r, hr, h3⟩ := bind_eq_ok h2
      have hv1 := significance_decode_ctx_bound hB hs hv hr
      split at h3
      · exact decode_sign_bit_bound hv1 h3
      · obtain ⟨st2, hset, heq⟩ := map_eq_ok h3
        cases heq
        rw [coeff_set_ok hset]
        apply valsBounded_updCoeff hv1
        intro v' n' he
        cases he

theorem refineCell_bound {B : Nat} {x y : Int} {sc sc1 : CodeBlockDecoder × Coder}
    (hs : sc.1.bit_plane_shift + 1 ≤ B) (hv : ValsBounded B sc.1)
    (h : refineCell x y sc = .ok sc1) : ValsBounded B sc1.1 := by
  unfold refineCell at h
  dsimp only at h
  split at h
  · cases h
    exact hv
  · obtain ⟨bs, _, h2⟩ := bind_eq_ok h
    split at h2
    · cases h2
      exact hv
    · exact magnitude_decode_bound hs hv h2

theorem cleanupColumn_bound {B : Nat} {b x : Int} {sc sc1 : CodeBlockDecoder × Coder}
    (hB : B ≤ 15) (hs : sc.1.bit_plane_shift + 1 ≤ B) (hv : ValsBounded B sc.1)
    (h : cleanupColumn b x sc = .ok sc1) : ValsBounded B sc1.1 := by
  have hloop : ∀ (l : List Int) (q q' : CodeBlockDecoder × Coder),
      loopM (fun y sc3 => cleanupCell x y sc3) l q = .ok q' →
      q.1.bit_plane_shift + 1 ≤ B → ValsBounded B q.1 → ValsBounded B q'.1 := by
    intro l q q' hq hsq hvq
    exact (loopM_inv (P := fun r => r.1.bit_plane_shift + 1 ≤ B ∧ ValsBounded B r.1)
      (fun i a a2 ha hP => ⟨by
          have := (cleanupCell_stepOk ha).2.2.2.2.1
          omega,
        cleanupCell_bound hB hP.1 hP.2 ha⟩) l q q' hq ⟨hsq, hvq⟩).2
  unfold cleanupColumn at h
  dsimp only at h
  split at h
  · split at h
    · cases h
      exact hv
    · split at h
      · obtain ⟨st1, hmk, h2⟩ := bind_eq_ok h
        obtain ⟨sc2, hsb, h3⟩ := bind_eq_ok h2
        have hv1 := make_significant_bound hB hs hv hmk
        have hv2 := decode_sign_bit_bound hv1 hsb
        have hsh1 := (make_significant_stepOk hmk).2.2.2.2.1
        have hsh2 := (decode_sign_bit_stepOk hsb).2.2.2.2.1
        exact hloop _ _ _ h3 (by omega) hv2
      · simp at h
  · exact hloop _ _ _ h hs hv

theorem pass_cleanup_bound {B : Nat} {sc sc1 : CodeBlockDecoder × Coder}
    (hB : B ≤ 15) (hs : sc.1.bit_plane_shift + 1 ≤ B) (hv : ValsBounded B sc.1)
    (h : pass_cleanup sc = .ok sc1) : ValsBounded B sc1.1 := by
  unfold pass_cleanup at h
  refine (loopM_inv (P := fun q => q.1.bit_plane_shift + 1 ≤ B ∧ ValsBounded B q.1)
    ?_ _ _ _ h ⟨hs, hv⟩).2
  intro b a a2 ha hP
  refine loopM_inv (P := fun q => q.1.bit_plane_shift + 1 ≤ B ∧ ValsBounded B q.1)
    ?_ _ _ _ ha hP
  intro x q q2 hq hQ
  exact ⟨by
      have := (cleanupColumn_stepOk hq).2.2.2.2.1
      omega,
    cleanupColumn_bound hB hQ.1 hQ.2 hq⟩

theorem pass_significance_bound {B : Nat} {sc sc1 : CodeBlockDecoder × Coder}
    (hB : B ≤ 15) (hs : sc.1.bit_plane_shift + 1 ≤ B) (hv : ValsBounded B sc.1)
    (h : pass_significance sc = .ok sc1) : ValsBounded B sc1.1 := by
  unfold pass_significance at h
  refine (loopM_inv (P := fun q => q.1.bit_plane_shift + 1 ≤ B ∧ ValsBounded B q.1)
    ?_ _ _ _ h ⟨hs, hv⟩).2
  intro b a a2 ha hP
  refine loopM_inv (P := fun q => q.1.bit_plane_shift + 1 ≤ B ∧ ValsBounded B q.1)
    ?_ _ _ _ ha hP
  intro x q q2 hq hQ
  refine loopM_inv (P := fun q3 => q3.1.bit_plane_shift + 1 ≤ B ∧ ValsBounded B q3.1)
    ?_ _ _ _ hq hQ
  intro y r r2 hr hR
  exact ⟨by
      have := (sigCell_stepOk hr).2.2.2.2.1
      omega,
    sigCell_bound hB hR.1 hR.2 hr⟩

theorem pass_refinement_bound {B : Nat} {sc sc1 : CodeBlockDecoder × Coder}
    (hs : sc.1.bit_plane_shift + 1 ≤ B) (hv : ValsBounded B sc.1)
    (h : pass_refinement sc = .ok sc1) : ValsBounded B sc1.1 := by
  unfold pass_refinement at h
  refine (loopM_inv (P := fun q => q.1.bit_plane_shift + 1 ≤ B ∧ ValsBounded B q.1)
    ?_ _ _ _ h ⟨hs, hv⟩).2
  intro b a a2 ha hP
  refine loopM_inv (P := fun q => q.1.bit_plane_shift + 1 ≤ B ∧ ValsBounded B q.1)
    ?_ _ _ _ ha hP
  intro x q q2 hq hQ
  refine loopM_inv (P := fun q3 => q3.1.bit_plane_shift + 1 ≤ B ∧ ValsBounded B q3.1)
    ?_ _ _ _ hq hQ
  intro y r r2 hr hR
  exact ⟨by
      have := (refineCell_stepOk hr).2.2.2.2.1
      omega,
    refineCell_bound hR.1 hR.2 hr⟩

theorem tripletLoop_bound {B : Nat} (hB : B ≤ 15) :
    ∀ (l : List Nat) (sc sc' : CodeBlockDecoder × Coder),
      tripletLoop l sc = .ok sc' → sc.1.bit_plane_shift + 1 ≤ B →
      ValsBounded B sc.1 → ValsBounded B sc'.1 := by
  intro l
  induction l with
  | nil =>
    intro sc sc' h hs hv
    simp [tripletLoop] at h
    cases h
    exact hv
  | cons hd rest ih =>
    intro sc sc' h hs hv
    unfold tripletLoop at h
    obtain ⟨st1, hdec, h2⟩ := bind_eq_ok h
    obtain ⟨hne, hst1⟩ := decShift_ok hdec
    obtain ⟨sc2, hsig, h3⟩ := bind_eq_ok h2
    obtain ⟨sc3, href, h4⟩ := bind_eq_ok h3
    obtain ⟨sc4, hcln, h5⟩ := bind_eq_ok h4
    have hs1 : st1.bit_plane_shift + 1 ≤ B := by
      rw [hst1]
      dsimp only
      omega
    have hv1 : ValsBounded B st1 := by
      rw [hst1]
      exact hv
    have hsh2 := (pass_significance_frame hsig).2.2.2.2.1
    have hsh3 := (pass_refinement_frame href).2.2.2.2.1
    have hsh4 := (pass_cleanup_frame hcln).2.2.2.2.1
    simp [recordPass] at hsh2 hsh3 hsh4
    have hv2 := pass_significance_bound hB hs1 hv1 hsig
    have hv3 := pass_refinement_bound (by omega) hv2 href
    have hv4 := pass_cleanup_bound hB (by omega) hv3 hcln
    exact ih sc4 sc' h5 (by omega) hv4

theorem decode_bound {B : Nat} {st : CodeBlockDecoder} {c : Coder}
    {sc' : CodeBlockDecoder × Coder} (hB : B ≤ 15)
    (h : st.decode c = .ok sc') (hs : st.bit_plane_shift + 1 ≤ B)
    (hv : ValsBounded B st) : ValsBounded B sc'.1 := by
  unfold CodeBlockDecoder.decode at h
  obtain ⟨sc1, hcln, h2⟩ := bind_eq_ok h
  have hsh1 := (pass_cleanup_frame hcln).2.2.2.2.1
  simp [recordPass] at hsh1
  have hv1 := pass_cleanup_bound hB hs hv hcln
  exact tripletLoop_bound hB _ _ _ h2 (by omega) hv1

theorem mapExc_eq_map (l : List Coeff)
    (hnn : ∀ co ∈ l, ∀ (v : Int) (n : Bool), co = .Significant v n → 0 ≤ v) :
    mapExc l = .ok (l.map specCoeffOut) := by
  induction l with
  | nil => simp [mapExc]
  | cons c rest ih =>
    have hc := hnn c (by simp)
    have hrest := ih fun co hm => hnn co (by simp [hm])
    unfold mapExc
    rw [hrest]
    cases c with
    | Insignificant bs => simp [coeffOut, specCoeffOut, Except.bind, Except.map]
    | Significant v n =>
      have hv := hc v n rfl
      cases n
      · simp [coeffOut, specCoeffOut, Except.bind, Except.map]
      · have hne : v ≠ -32768 := by omega
        simp [coeffOut, specCoeffOut, hne, Except.bind, Except.map]

theorem specCoeffOut_natAbs_lt {B : Nat} {co : Coeff}
    (hb : ∀ (v : Int) (n : Bool), co = .Significant v n → 0 ≤ v ∧ v < (2 : Int) ^ B) :
    (specCoeffOut co).natAbs < 2 ^ B := by
  have hc : ((2 ^ B : Nat) : Int) = (2 : Int) ^ B := by push_cast; ring
  cases co with
  | Insignificant bs =>
    simp [specCoeffOut]
  | Significant v n =>
    have h := hb v n rfl
    cases n <;> simp [specCoeffOut] <;> omega

/-- C2 (amended): for every decode via `new` with `M_b ≤ 15` that returns Ok,
`coefficients()` returns (without aborting) the row-major vector of exactly
`width * height` values in which an insignificant cell contributes 0 and a
significant cell contributes `-magnitude` when negative and `+magnitude`
otherwise, and every coefficient `c` satisfies `|c| < 2 ^ M_b`.  (At
`M_b = 16` a negative coefficient stores `-32768` and `coefficients()`
aborts, so the restriction to `M_b ≤ 15` is necessary.) -/
theorem C2_coefficients_amended (w h : Int) (sb : SubBandType) (np mb : Nat)
    (c : Coder) (st0 : CodeBlockDecoder) (sc' : CodeBlockDecoder × Coder)
    (hnew : CodeBlockDecoder.new w h sb np mb = .ok st0) (hmb : mb ≤ 15)
    (hdec : st0.decode c = .ok sc') :
    sc'.1.coefficientsVec = .ok (sc'.1.coefficients.map specCoeffOut) ∧
    (sc'.1.coefficients.map specCoeffOut).length = (w * h).toNat ∧
    (∀ i : Nat, (sc'.1.coefficients.map specCoeffOut)[i]? =
      (sc'.1.coefficients[i]?).map specCoeffOut) ∧
    ∀ z ∈ sc'.1.coefficients.map specCoeffOut, z.natAbs < 2 ^ mb := by
  unfold CodeBlockDecoder.new at hnew
  split at hnew
  · simp at hnew
  · split at hnew
    · simp at hnew
    · rename_i hmb0 _
      cases hnew
      have hs : (mb - 1) + 1 ≤ mb := by omega
      have hv0 : ValsBounded mb
          { width := w, height := h, subband := sb, no_passes := np,
            bit_plane_shift := mb - 1,
            coefficients := List.replicate (w * h).toNat (.Insignificant 255),
            passTrace := [] } := by
        intro co hm v n hcn
        have := List.eq_of_mem_replicate hm
        rw [this] at hcn
        cases hcn
      have hvf := decode_bound hmb hdec hs hv0
      have hlen := (decode_frame hdec).2.2.2.2.2.2.2
      refine ⟨?_, ?_, ?_, ?_⟩
      · exact mapExc_eq_map _ fun co hm v n hcn => (hvf co hm v n hcn).1
      · rw [List.length_map, hlen]
        simp
      · intro i
        simp [List.getElem?_map]
      · intro z hz
        obtain ⟨co, hm, hco⟩ := List.mem_map.mp hz
        rw [← hco]
        exact specCoeffOut_natAbs_lt fun v n hcn => hvf co hm v n hcn

/-- Counterexample to C2 as stated: at `M_b = 16` a decode can return Ok with
a negative significant cell storing `-32768` (`1i16 << 15` wraps), and
`coefficients()` then aborts on the `i16` negation overflow `-1 * (-32768)`
instead of returning the claimed vector. -/
theorem C2_counterexample :
    errOf (runNew 1 1 .LL 1 16 oneCoder) = none ∧
    coeffsOf (runNew 1 1 .LL 1 16 oneCoder) = .error .abort :=
  ⟨rfl, rfl⟩

/-- Witness for C2 (amended): a concrete 1×1 decode at `M_b = 1` returns the
vector `[0]`, whose only value satisfies `|c| < 2 ^ 1`. -/
theorem C2_coefficients_amended_witness :
    coeffsOf (runNew 1 1 .LL 1 1 zeroCoder) = .ok [0] ∧
    ∀ z ∈ [(0 : Int)], z.natAbs < 2 ^ 1 := by
  refine ⟨rfl, ?_⟩
  cases hdec : wit2St.decode zeroCoder with
  | error e =>
    have hnone : errOf (wit2St.decode zeroCoder) = none := rfl
    rw [hdec] at hnone
    simp [errOf] at hnone
  | ok sc' =>
    have hc := C2_coefficients_amended 1 1 .LL 1 1 zeroCoder wit2St sc' rfl
      (by decide) hdec
    have known : (wit2St.decode zeroCoder).map (fun p => p.1.coefficients) =
        .ok [Coeff.Insignificant 255] := rfl
    rw [hdec] at known
    simp [Except.map] at known
    have hb := hc.2.2.2
    rw [known] at hb
    exact hb

/-- C10 (amended): coefficient magnitudes live in `i16` storage; for every
decode whose initial `bit_plane_shift` (`M_b - 1 - num_zero_bit_planes`) is at
most 14 and that returns Ok, every stored magnitude satisfies
`0 ≤ v ≤ 32767` (so `make_significant`'s `1 << shift` and every refinement OR
stay within the `i16` value range) and `coefficients()` converts each value to
a signed 32-bit integer losslessly.  However, the precondition does not make
the refinement arithmetic overflow-free: the `u8` expression
`b << bit_plane_shift` aborts whenever a refinement decode happens at a plane
≥ 8, which initial shifts 9…14 allow. -/
theorem C10_i16_storage_amended (w h : Int) (sb : SubBandType) (np mb k : Nat)
    (c : Coder) (st0 st1 : CodeBlockDecoder) (sc' : CodeBlockDecoder × Coder)
    (hnew : CodeBlockDecoder.new w h sb np mb = .ok st0)
    (hnzb : num_zero_bit_plane st0 k = .ok st1)
    (hsh : st1.bit_plane_shift ≤ 14)
    (hdec : st1.decode c = .ok sc') :
    (∀ co ∈ sc'.1.coefficients, ∀ (v : Int) (n : Bool), co = .Significant v n →
      0 ≤ v ∧ v ≤ 32767) ∧
    sc'.1.coefficientsVec = .ok (sc'.1.coefficients.map specCoeffOut) ∧
    ∀ z ∈ sc'.1.coefficients.map specCoeffOut, -32767 ≤ z ∧ z ≤ 32767 := by
  have hB : st1.bit_plane_shift + 1 ≤ 15 := by omega
  have hv0 : ValsBounded (st1.bit_plane_shift + 1) st1 := by
    unfold CodeBlockDecoder.new at hnew
    split at hnew
    · simp at hnew
    · split at hnew
      · simp at hnew
      · cases hnew
        unfold num_zero_bit_plane at hnzb
        split at hnzb
        · simp at hnzb
        · cases hnzb
          intro co hm v n hcn
          have := List.eq_of_mem_replicate hm
          rw [this] at hcn
          cases hcn
  have hvf := decode_bound hB hdec (by omega) hv0
  have hpow : (2 : Int) ^ (st1.bit_plane_shift + 1) ≤ (2 : Int) ^ 15 :=
    pow_le_pow_right₀ (by norm_num) hB
  have h15 : (2 : Int) ^ 15 = 32768 := by norm_num
  have hbound : ∀ co ∈ sc'.1.coefficients, ∀ (v : Int) (n : Bool),
      co = .Significant v n → 0 ≤ v ∧ v ≤ 32767 := by
    intro co hm v n hcn
    have := hvf co hm v n hcn
    omega
  refine ⟨hbound, ?_, ?_⟩
  · exact mapExc_eq_map _ fun co hm v n hcn => (hbound co hm v n hcn).1
  · intro z hz
    obtain ⟨co, hm, hco⟩ := List.mem_map.mp hz
    rw [← hco]
    cases co with
    | Insignificant bs => simp [specCoeffOut]
    | Significant v n =>
      have := hbound _ hm v n rfl
      cases n <;> simp [specCoeffOut] <;> omega

/-- Counterexample to C10 as stated: `M_b = 15` gives initial
`bit_plane_shift = 14` (within the claimed precondition), yet decoding with
enough passes aborts — the refinement pass's `u8` shift `b << 13` overflows —
so the magnitude arithmetic is not overflow-free under the precondition. -/
theorem C10_counterexample :
    (CodeBlockDecoder.new 1 1 .LL 4 15).map (fun st => st.bit_plane_shift) = .ok 14 ∧
    errOf (runNew 1 1 .LL 4 15 oneCoder) = some .abort :=
  ⟨rfl, rfl⟩

/-- Witness for C10 (amended): a concrete decode at `M_b = 15` (initial shift
14) returning Ok keeps every output in the `i16` range. -/
theorem C10_i16_storage_amended_witness :
    (wit10St.decode zeroCoder).map (fun p => p.1.coefficients) =
      .ok [Coeff.Insignificant 255] ∧
    ∀ z ∈ List.map specCoeffOut [Coeff.Insignificant 255],
      -32767 ≤ z ∧ z ≤ 32767 := by
  refine ⟨rfl, ?_⟩
  cases hdec : wit10St.decode zeroCoder with
  | error e =>
    have hnone : errOf (wit10St.decode zeroCoder) = none := rfl
    rw [hdec] at hnone
    simp [errOf] at hnone
  | ok sc' =>
    have hc := C10_i16_storage_amended 1 1 .LL 1 15 0 zeroCoder wit10St wit10St sc'
      rfl rfl (by decide) hdec
    have known : (wit10St.decode zeroCoder).map (fun p => p.1.coefficients) =
        .ok [Coeff.Insignificant 255] := rfl
    rw [hdec] at known
    simp [Except.map] at known
    have hb := hc.2.2
    rw [known] at hb
    exact hb

/-! ## Validation against the crate's own J.10 test vectors: the embedding
reproduces `test_cb_decode_j10a_mocked` and `test_cb_decode_j10b_mocked`
bit-for-bit — same coefficients, same context sequence, same bit count. -/

example :
    ((CodeBlockDecoder.new 1 5 .LL 16 9).bind fun st0 =>
      (num_zero_bit_plane st0 3).bind fun st1 =>
      (st1.decode j10aCoder).bind fun p =>
      (p.1.coefficientsVec).map fun v => (v, p.2.trace.length, p.2.pos)) =
      .ok ([-26, -22, -30, -32, -19], 34, 34) := rfl

example :
    ((CodeBlockDecoder.new 1 4 .LH 7 10).bind fun st0 =>
      (num_zero_bit_plane st0 7).bind fun st1 =>
      (st1.decode j10bCoder).bind fun p =>
      (p.1.coefficientsVec).map fun v => (v, p.2.trace)) =
      .ok ([1, 5, 1, 0],
        [17, 18, 18, 9, 3, 0, 3, 3, 14, 0, 3, 10, 3, 10, 3, 16]) := rfl
